import Mathlib

/-!
# Event dispatch, controller edge detection and deferred removal

A shallow embedding of the event system (`fw::EventManager`), the input
`Controller` and the scene root `Game` of the repository, with the properties
of the specification stated and proved over it.

Heap objects are modelled by value: an `Event*` is an element of the event type,
a `GameObject*` an element of the object-identity type `Obj`, and a `delete` is
recorded in a trace instead of freeing memory.
-/

namespace fw

/-! ## EventManager (Framework/Source/EventSystem/EventManager.cpp) -/

/-- Observable effects of the event manager on the outside world: a call of the
receiver's `OnEvent` on an event, and the `delete` of an event. -/
inductive Effect (ε : Type) where
  | onEvent (pEvent : ε)
  | delete (pEvent : ε)
  deriving DecidableEq, Repr

/-- The events on which the receiver was invoked, in invocation order. -/
def Effect.calls {ε : Type} : List (Effect ε) → List ε
  | [] => []
  | .onEvent e :: t => e :: Effect.calls t
  | .delete _ :: t => Effect.calls t

/-- The events that were released with `delete`, in release order. -/
def Effect.deletes {ε : Type} : List (Effect ε) → List ε
  | [] => []
  | .onEvent _ :: t => Effect.deletes t
  | .delete e :: t => e :: Effect.deletes t

/-- The class `EventManager`: its only member is the queue `m_EventQueue`
(a `std::queue<Event*>`, front of the queue = head of the list). -/
structure EventManager (ε : Type) where
  m_EventQueue : List ε
  deriving DecidableEq, Repr

/-- The constructor `EventManager::EventManager()`: the queue starts empty. -/
def EventManager.new {ε : Type} : EventManager ε :=
  { m_EventQueue := [] }

/-- The method `EventManager::AddEvent`: `m_EventQueue.push( pEvent )`. -/
def EventManager.AddEvent {ε : Type} (em : EventManager ε) (pEvent : ε) : EventManager ε :=
  { m_EventQueue := em.m_EventQueue ++ [pEvent] }

/-- The loop of the destructor, `while( m_EventQueue.empty() == false )` with body
`delete m_EventQueue.front(); m_EventQueue.pop();`: the queue it leaves and the
trace of effects. -/
def EventManager.destructorLoop {ε : Type} : List ε → List ε × List (Effect ε)
  | [] => ([], [])
  | pEvent :: rest =>
    ((EventManager.destructorLoop rest).1,
      Effect.delete pEvent :: (EventManager.destructorLoop rest).2)

/-- The destructor `EventManager::~EventManager()`: the manager after the loop
and the trace of effects. -/
def EventManager.destructor {ε : Type} (em : EventManager ε) :
    EventManager ε × List (Effect ε) :=
  ({ m_EventQueue := (EventManager.destructorLoop em.m_EventQueue).1 },
    (EventManager.destructorLoop em.m_EventQueue).2)

/-- What one call of `DispatchAllEvents` leaves behind: the receiver's state,
the manager, and the trace of receiver calls and deletes. -/
structure Dispatched (σ ε : Type) where
  receiver : σ
  manager : EventManager ε
  trace : List (Effect ε)
  deriving DecidableEq, Repr

/-- The `while( m_EventQueue.empty() == false )` loop of `DispatchAllEvents`.
The receiver is `OnEvent : σ → ε → σ × List ε`: its new state and the events it
passed to `AddEvent` while handling the event (pushed behind the events still
queued). One unit of fuel is one iteration; `none` is an exhausted fuel. -/
def EventManager.dispatchLoop {σ ε : Type} (OnEvent : σ → ε → σ × List ε) :
    Nat → σ → List ε → Option (Dispatched σ ε)
  | _, s, [] => some { receiver := s, manager := { m_EventQueue := [] }, trace := [] }
  | 0, _, _ :: _ => none
  | fuel + 1, s, pEvent :: rest =>
    match EventManager.dispatchLoop OnEvent fuel (OnEvent s pEvent).1
        (rest ++ (OnEvent s pEvent).2) with
    | none => none
    | some r =>
      some { r with trace := Effect.onEvent pEvent :: Effect.delete pEvent :: r.trace }

/-- The method `EventManager::DispatchAllEvents( pGameCore )`. -/
def EventManager.DispatchAllEvents {σ ε : Type} (fuel : Nat)
    (OnEvent : σ → ε → σ × List ε) (s : σ) (em : EventManager ε) :
    Option (Dispatched σ ε) :=
  if em.m_EventQueue.isEmpty then
    some { receiver := s, manager := em, trace := [] }
  else
    EventManager.dispatchLoop OnEvent fuel s em.m_EventQueue

/-- The events a receiver passes to `AddEvent` while it is handed the events
`delivered`, one after the other, starting in state `s`. -/
def enqueuedDuring {σ ε : Type} (OnEvent : σ → ε → σ × List ε) : σ → List ε → List ε
  | _, [] => []
  | s, e :: delivered =>
    (OnEvent s e).2 ++ enqueuedDuring OnEvent (OnEvent s e).1 delivered

/-- The trace of a pass that hands over and then deletes each event in turn. -/
def deliveries {ε : Type} : List ε → List (Effect ε)
  | [] => []
  | e :: es => Effect.onEvent e :: Effect.delete e :: deliveries es

/-- A receiver that re-enqueues: handling event `0` adds event `1`, handling any
other event adds nothing. Its state counts the calls. -/
def chainReceiver (calls : Nat) (e : Nat) : Nat × List Nat :=
  (calls + 1, if e = 0 then [1] else [])

/-- A receiver that only counts its calls and adds no event. -/
def countingReceiver (calls : Nat) (_e : Nat) : Nat × List Nat :=
  (calls + 1, [])

/-! ## Events (Events.h, Events/GameEvents.h) -/

/-- Modelled from the spec: the enumeration `InputEvent::DeviceType` of Events.h,
which is not among the sources. The code only compares with `Keyboard`; every
other device is `Other`. -/
inductive DeviceType where
  | Keyboard
  | Other (id : Nat)
  deriving DecidableEq, Repr

/-- Modelled from the spec: the enumeration `InputEvent::DeviceState` of Events.h,
which is not among the sources. The code only compares with `Pressed` and
`Released`; every other state is `Other`. -/
inductive DeviceState where
  | Pressed
  | Released
  | Other (id : Nat)
  deriving DecidableEq, Repr

/-- Modelled from the spec: the event variants of Events.h and GameEvents.h, which
are not among the sources: input event (device type, device state, key code),
window-resize event, character-input event and remove-object event (target
object). The constructor plays the part of the static event type. -/
inductive Event (Obj : Type) where
  | InputEvent (deviceType : DeviceType) (deviceState : DeviceState) (keyCode : Int)
  | WindowResizeEvent (width height : Int)
  | OnCharEvent (value : Int)
  | RemoveFromGameEvent (pObject : Obj)
  deriving DecidableEq, Repr

/-- The targets of the removal events of a queue, in queue order. -/
def removalTargets {Obj : Type} : List (Event Obj) → List Obj
  | [] => []
  | .RemoveFromGameEvent pObject :: es => pObject :: removalTargets es
  | .InputEvent _ _ _ :: es => removalTargets es
  | .WindowResizeEvent _ _ :: es => removalTargets es
  | .OnCharEvent _ :: es => removalTargets es

end fw

/-! ## Controller (Game/Source/Objects/Controller.cpp) -/

/-- Virtual-key code `VK_LEFT` of the host windowing API. -/
def VK_LEFT : Int := 0x25
/-- Virtual-key code `VK_UP` of the host windowing API. -/
def VK_UP : Int := 0x26
/-- Virtual-key code `VK_RIGHT` of the host windowing API. -/
def VK_RIGHT : Int := 0x27
/-- Virtual-key code `VK_DOWN` of the host windowing API. -/
def VK_DOWN : Int := 0x28
/-- The character literal `'W'`. -/
def KEY_W : Int := 87
/-- The character literal `'S'`. -/
def KEY_S : Int := 83
/-- The character literal `'A'`. -/
def KEY_A : Int := 65
/-- The character literal `'D'`. -/
def KEY_D : Int := 68
/-- The character literal `'Z'`. -/
def KEY_Z : Int := 90

/-- The enumerators of `Controller::Mask`, the logical actions. Their values are
declared in Controller.h, which is not among the sources: the definitions below
take them as the parameter `mask : Mask → Nat`. -/
inductive Mask where
  | Up
  | Down
  | Left
  | Right
  | Action
  deriving DecidableEq, Repr

/-- The enumerator values are single bits of a 32-bit word, one bit per action. -/
def SingleBitMasks (mask : Mask → Nat) : Prop :=
  (∀ a, ∃ k, k < 32 ∧ mask a = 2 ^ k) ∧ Function.Injective mask

/-- One assignment of single bits to the actions: bits 0 to 4. -/
def stdMask : Mask → Nat
  | .Up => 1
  | .Down => 2
  | .Left => 4
  | .Right => 8
  | .Action => 16

/-- The operator `~` on a 32-bit word. -/
def complement32 (x : Nat) : Nat :=
  2 ^ 32 - 1 - x % 2 ^ 32

/-- The class `Controller`: the current flags and the flags of the previous
frame, 32-bit words. -/
structure Controller where
  m_Flags : Nat
  m_OldFlags : Nat
  deriving DecidableEq, Repr

/-- The method `Controller::StartFrame`: `m_OldFlags = m_Flags`. -/
def Controller.StartFrame (c : Controller) : Controller :=
  { c with m_OldFlags := c.m_Flags }

/-- The method `Controller::OnEvent`: the type test, the device test, and the two
`switch` statements on the key code, one under `Pressed` and one under
`Released`. -/
def Controller.OnEvent {Obj : Type} (mask : Mask → Nat) (c : Controller)
    (pEvent : fw.Event Obj) : Controller :=
  match pEvent with
  | .InputEvent deviceType deviceState keyCode =>
    if deviceType = fw.DeviceType.Keyboard then
      let c1 : Controller :=
        if deviceState = fw.DeviceState.Pressed then
          if keyCode = KEY_W ∨ keyCode = VK_UP then
            { c with m_Flags := c.m_Flags ||| mask .Up }
          else if keyCode = KEY_S ∨ keyCode = VK_DOWN then
            { c with m_Flags := c.m_Flags ||| mask .Down }
          else if keyCode = KEY_A ∨ keyCode = VK_LEFT then
            { c with m_Flags := c.m_Flags ||| mask .Left }
          else if keyCode = KEY_D ∨ keyCode = VK_RIGHT then
            { c with m_Flags := c.m_Flags ||| mask .Right }
          else if keyCode = KEY_Z then
            { c with m_Flags := c.m_Flags ||| mask .Action }
          else c
        else c
      if deviceState = fw.DeviceState.Released then
        if keyCode = KEY_W ∨ keyCode = VK_UP then
          { c1 with m_Flags := c1.m_Flags &&& complement32 (mask .Up) }
        else if keyCode = KEY_S ∨ keyCode = VK_DOWN then
          { c1 with m_Flags := c1.m_Flags &&& complement32 (mask .Down) }
        else if keyCode = KEY_A ∨ keyCode = VK_LEFT then
          { c1 with m_Flags := c1.m_Flags &&& complement32 (mask .Left) }
        else if keyCode = KEY_D ∨ keyCode = VK_RIGHT then
          { c1 with m_Flags := c1.m_Flags &&& complement32 (mask .Right) }
        else if keyCode = KEY_Z then
          { c1 with m_Flags := c1.m_Flags &&& complement32 (mask .Action) }
        else c1
      else c1
    else c
  | _ => c

/-- The method `Controller::IsHeld`: `(m_Flags & mask) != 0`. -/
def Controller.IsHeld (c : Controller) (mask : Nat) : Bool :=
  (c.m_Flags &&& mask) != 0

/-- The method `Controller::WasPressed`. -/
def Controller.WasPressed (c : Controller) (mask : Nat) : Bool :=
  ((c.m_Flags &&& mask) != 0) && ((c.m_OldFlags &&& mask) == 0)

/-- The method `Controller::WasReleased`. -/
def Controller.WasReleased (c : Controller) (mask : Nat) : Bool :=
  ((c.m_Flags &&& mask) == 0) && ((c.m_OldFlags &&& mask) != 0)

/-- The controller's part of one frame: `Controller::StartFrame` once, then the
frame's events handed to `Controller::OnEvent` in queue order. -/
def Controller.runFrame {Obj : Type} (mask : Mask → Nat) (c : Controller)
    (events : List (fw.Event Obj)) : Controller :=
  events.foldl (Controller.OnEvent mask) c.StartFrame

/-- The controller after a sequence of frames, each given by its events. -/
def Controller.runFrames {Obj : Type} (mask : Mask → Nat) (c : Controller)
    (frames : List (List (fw.Event Obj))) : Controller :=
  frames.foldl (Controller.runFrame mask) c

/-! ### The state machine of the specification -/

/-- The key map in the words of the specification: W or Up, S or Down, A or Left,
D or Right, Z; every other key code is unmapped. -/
def keyAction (keyCode : Int) : Option Mask :=
  if keyCode = 87 ∨ keyCode = 0x26 then some .Up
  else if keyCode = 83 ∨ keyCode = 0x28 then some .Down
  else if keyCode = 65 ∨ keyCode = 0x25 then some .Left
  else if keyCode = 68 ∨ keyCode = 0x27 then some .Right
  else if keyCode = 90 then some .Action
  else none

/-- What an event does to the action `a` in the specification's state machine:
`some true` for a keyboard press of a key mapped to `a` (released to held),
`some false` for a keyboard release of such a key (held to released), `none`
for every other event. -/
def transitionOf {Obj : Type} (a : Mask) : fw.Event Obj → Option Bool
  | .InputEvent .Keyboard .Pressed keyCode =>
    if keyAction keyCode = some a then some true else none
  | .InputEvent .Keyboard .Released keyCode =>
    if keyAction keyCode = some a then some false else none
  | _ => none

/-- The transition of the last event of the sequence that maps to the action `a`,
`none` when no event of the sequence maps to it. -/
def lastTransition {Obj : Type} (a : Mask) : List (fw.Event Obj) → Option Bool
  | [] => none
  | e :: es =>
    match lastTransition a es with
    | some b => some b
    | none => transitionOf a e

/-- The state machine of the specification for the action `a`, run over a sequence
of events from the state `held`: a matching key press leads to held, a matching
key release to released, every other event leaves the state. -/
def specHeld {Obj : Type} (a : Mask) (held : Bool) (events : List (fw.Event Obj)) : Bool :=
  events.foldl (fun h e => (transitionOf a e).getD h) held

/-- The key-down event of a key. -/
def KeyDown {Obj : Type} (keyCode : Int) : fw.Event Obj :=
  .InputEvent .Keyboard .Pressed keyCode

/-- The key-up event of a key. -/
def KeyUp {Obj : Type} (keyCode : Int) : fw.Event Obj :=
  .InputEvent .Keyboard .Released keyCode

/-- A controller with all flags clear. -/
def clearController : Controller :=
  { m_Flags := 0, m_OldFlags := 0 }

/-- The scenario of the specification: KeyDown W, KeyDown Z, KeyUp W. -/
def scenarioEvents : List (fw.Event Nat) :=
  [KeyDown KEY_W, KeyDown KEY_Z, KeyUp KEY_W]

/-- A frame without events. -/
def frameIdle : List (fw.Event Nat) := []

/-- A frame in which W goes down. -/
def framePressW : List (fw.Event Nat) := [KeyDown KEY_W]

/-- A frame in which Z goes down. -/
def framePressZ : List (fw.Event Nat) := [KeyDown KEY_Z]

/-- A frame in which the Up arrow goes up. -/
def frameReleaseUp : List (fw.Event Nat) := [KeyUp VK_UP]

/-! ## Game (Game/Source/Game.cpp) -/

/-- The class `Game`, as far as the event phase and the object loops go: the
controller and the event manager it points to, the object collection
`m_Objects` (a `std::vector<fw::GameObject*>`), and three records of calls that
leave the class: the objects destroyed with `delete pObject`, the characters
passed to the GUI overlay, and the number of `SetAspectRatio` calls on the
camera. -/
structure Game (Obj : Type) where
  m_pController : Controller
  m_pEventManager : fw.EventManager (fw.Event Obj)
  m_Objects : List Obj
  deletedObjects : List Obj
  imguiInputCharacters : List Int
  aspectRatioUpdates : Nat
  deriving DecidableEq, Repr

/-- The method `Game::OnEvent`. The iterator returned by `std::find` is the index
`List.indexOf` (the length of the list for `end()`); `erase` of the end iterator
is undefined behaviour, `none`. -/
def Game.OnEvent {Obj : Type} [DecidableEq Obj] (mask : Mask → Nat) (g : Game Obj)
    (pEvent : fw.Event Obj) : Option (Game Obj) :=
  -- Process events.
  let g1 : Game Obj := { g with m_pController := g.m_pController.OnEvent mask pEvent }
  -- Remove object from GameObject list and delete it.
  let r2 : Option (Game Obj) :=
    match pEvent with
    | .RemoveFromGameEvent pObject =>
      let it := g1.m_Objects.indexOf pObject
      if it < g1.m_Objects.length then
        some { g1 with
          m_Objects := g1.m_Objects.eraseIdx it
          deletedObjects := g1.deletedObjects ++ [pObject] }
      else none
    | _ => some g1
  match r2 with
  | none => none
  | some g2 =>
    -- Set the new aspect ratio in the camera.
    let g3 : Game Obj :=
      match pEvent with
      | .WindowResizeEvent _ _ => { g2 with aspectRatioUpdates := g2.aspectRatioUpdates + 1 }
      | _ => g2
    -- Pass "WM_CHAR" events to imgui to handle text input.
    match pEvent with
    | .OnCharEvent value =>
      some { g3 with imguiInputCharacters := g3.imguiInputCharacters ++ [value] }
    | _ => some g3

/-- The game as the receiver of `DispatchAllEvents`: `Game::OnEvent` adds no event
to the queue; once the behaviour is undefined (`none`) it stays so. -/
def Game.receiver {Obj : Type} [DecidableEq Obj] (mask : Mask → Nat)
    (s : Option (Game Obj)) (pEvent : fw.Event Obj) :
    Option (Game Obj) × List (fw.Event Obj) :=
  (match s with
    | none => none
    | some g => Game.OnEvent mask g pEvent, [])

/-- The method `Game::StartFrame`: the controller's `StartFrame`, then
`m_pEventManager->DispatchAllEvents( this )`. The outer `none` is an exhausted
fuel, the inner `none` undefined behaviour in `Game::OnEvent`. -/
def Game.StartFrame {Obj : Type} [DecidableEq Obj] (mask : Mask → Nat) (fuel : Nat)
    (g : Game Obj) : Option (Option (Game Obj)) :=
  -- Reset the controller.
  let g1 : Game Obj := { g with m_pController := g.m_pController.StartFrame }
  -- Dispatch events.
  match fw.EventManager.DispatchAllEvents fuel (Game.receiver mask) (some g1)
      g1.m_pEventManager with
  | none => none
  | some r =>
    match r.receiver with
    | none => some none
    | some g2 => some (some { g2 with m_pEventManager := r.manager })

/-- The call of `AddEvent` on the game's event manager, as the host and the objects
make it. -/
def Game.AddEvent {Obj : Type} (g : Game Obj) (pEvent : fw.Event Obj) : Game Obj :=
  { g with m_pEventManager := g.m_pEventManager.AddEvent pEvent }

/-- The loop `for( fw::GameObject* pObject : m_Objects )` of `Game::Update`. The
virtual `pObject->Update( deltaTime )` is the parameter `objectUpdate`: the events
the object enqueues, given the controller it may read (`GameObject::Update` and
`Player::Update` enqueue none); positions are not tracked. Returns the event
manager and the objects visited, in visiting order. -/
def Game.updateLoop {Obj : Type} (objectUpdate : Controller → Obj → List (fw.Event Obj))
    (c : Controller) :
    List Obj → fw.EventManager (fw.Event Obj) → fw.EventManager (fw.Event Obj) × List Obj
  | [], em => (em, [])
  | pObject :: rest, em =>
    let em1 := (objectUpdate c pObject).foldl fw.EventManager.AddEvent em
    ((Game.updateLoop objectUpdate c rest em1).1,
      pObject :: (Game.updateLoop objectUpdate c rest em1).2)

/-- The method `Game::Update`: the game afterwards and the objects whose `Update`
was called, in order. -/
def Game.Update {Obj : Type} (objectUpdate : Controller → Obj → List (fw.Event Obj))
    (g : Game Obj) : Game Obj × List Obj :=
  ({ g with
      m_pEventManager :=
        (Game.updateLoop objectUpdate g.m_pController g.m_Objects g.m_pEventManager).1 },
    (Game.updateLoop objectUpdate g.m_pController g.m_Objects g.m_pEventManager).2)

/-- The loop `for( fw::GameObject* pObject : m_Objects )` of `Game::Draw`: the
objects whose `Draw` was called, in order. -/
def Game.drawLoop {Obj : Type} : List Obj → List Obj
  | [] => []
  | pObject :: rest => pObject :: Game.drawLoop rest

/-- The method `Game::Draw`: the game afterwards and the objects drawn. -/
def Game.Draw {Obj : Type} (g : Game Obj) : Game Obj × List Obj :=
  (g, Game.drawLoop g.m_Objects)

/-- The rest of a frame after `Game::StartFrame`: `Game::Update`, `Game::Draw`,
and the events the host adds before the next frame starts. -/
def Game.restOfFrame {Obj : Type} (objectUpdate : Controller → Obj → List (fw.Event Obj))
    (hostEvents : List (fw.Event Obj)) (g : Game Obj) : Game Obj :=
  hostEvents.foldl Game.AddEvent (Game.Draw (Game.Update objectUpdate g).1).1

/-- The `Update` of the objects of the sources: no event is enqueued. -/
def quietUpdate {Obj : Type} (_c : Controller) (_pObject : Obj) : List (fw.Event Obj) :=
  []

/-- An object update in which object `2` asks for its own removal. -/
def selfRemovingUpdate (_c : Controller) (pObject : Nat) : List (fw.Event Nat) :=
  if pObject = 2 then [.RemoveFromGameEvent 2] else []

/-- An object update in which the objects `1` and `2` both ask for the removal of
object `2`. -/
def twoAskersUpdate (_c : Controller) (pObject : Nat) : List (fw.Event Nat) :=
  if pObject = 1 ∨ pObject = 2 then [.RemoveFromGameEvent 2] else []

/-- A game with the objects `1`, `2`, `3`, an empty queue and clear flags. -/
def sampleGame : Game Nat :=
  { m_pController := { m_Flags := 0, m_OldFlags := 0 }
    m_pEventManager := { m_EventQueue := [] }
    m_Objects := [1, 2, 3]
    deletedObjects := []
    imguiInputCharacters := []
    aspectRatioUpdates := 0 }

/-- The sample game with a key press and removal events for `3` and `1` queued. -/
def sampleGameQueued : Game Nat :=
  { sampleGame with
    m_pEventManager :=
      { m_EventQueue := [.RemoveFromGameEvent 3, KeyDown KEY_Z, .RemoveFromGameEvent 1] } }

/-! ## Properties of the event manager -/

namespace fw

theorem calls_deliveries {ε : Type} (es : List ε) : Effect.calls (deliveries es) = es := by
  induction es with
  | nil => rfl
  | cons e es ih => simp [deliveries, Effect.calls, ih]

theorem deletes_deliveries {ε : Type} (es : List ε) : Effect.deletes (deliveries es) = es := by
  induction es with
  | nil => rfl
  | cons e es ih => simp [deliveries, Effect.deletes, ih]

theorem queue_foldl_AddEvent {ε : Type} (es : List ε) (em : EventManager ε) :
    (es.foldl EventManager.AddEvent em).m_EventQueue = em.m_EventQueue ++ es := by
  induction es generalizing em with
  | nil => simp
  | cons e es ih => simp [List.foldl, ih, EventManager.AddEvent]

/-- With a receiver that adds no event, the loop needs one iteration per queued
event and hands the events over in queue order. -/
theorem dispatchLoop_of_no_add {σ ε : Type} (OnEvent : σ → ε → σ × List ε)
    (hno : ∀ s e, (OnEvent s e).2 = []) :
    ∀ (fuel : Nat) (s : σ) (q : List ε), q.length ≤ fuel →
      EventManager.dispatchLoop OnEvent fuel s q =
        some { receiver := q.foldl (fun t e => (OnEvent t e).1) s
               manager := { m_EventQueue := [] }
               trace := deliveries q } := by
  intro fuel
  induction fuel with
  | zero =>
    intro s q hq
    cases q with
    | nil => rfl
    | cons e q => simp at hq
  | succ n ih =>
    intro s q hq
    cases q with
    | nil => rfl
    | cons e q =>
      have hlen : q.length ≤ n := by simpa using hq
      simp [EventManager.dispatchLoop, hno, ih _ q hlen, deliveries]

/-- The method `DispatchAllEvents` with a receiver that adds no event. -/
theorem DispatchAllEvents_of_no_add {σ ε : Type} (OnEvent : σ → ε → σ × List ε)
    (hno : ∀ s e, (OnEvent s e).2 = []) (fuel : Nat) (s : σ) (em : EventManager ε)
    (hfuel : em.m_EventQueue.length ≤ fuel) :
    EventManager.DispatchAllEvents fuel OnEvent s em =
      some { receiver := em.m_EventQueue.foldl (fun t e => (OnEvent t e).1) s
             manager := { m_EventQueue := [] }
             trace := deliveries em.m_EventQueue } := by
  obtain ⟨q⟩ := em
  cases q with
  | nil => rfl
  | cons e q =>
    simpa [EventManager.DispatchAllEvents] using dispatchLoop_of_no_add OnEvent hno fuel s (e :: q) hfuel

/-- Whenever the loop ends, the queue is empty and the events handed over are the
events queued at its start followed by the events enqueued on the way. -/
theorem dispatchLoop_some {σ ε : Type} (OnEvent : σ → ε → σ × List ε) :
    ∀ (fuel : Nat) (s : σ) (q : List ε) (r : Dispatched σ ε),
      EventManager.dispatchLoop OnEvent fuel s q = some r →
        r.manager.m_EventQueue = [] ∧
        r.trace = deliveries (Effect.calls r.trace) ∧
        Effect.calls r.trace = q ++ enqueuedDuring OnEvent s (Effect.calls r.trace) ∧
        r.receiver = (Effect.calls r.trace).foldl (fun t e => (OnEvent t e).1) s := by
  intro fuel
  induction fuel with
  | zero =>
    intro s q r h
    cases q with
    | nil =>
      simp only [EventManager.dispatchLoop, Option.some.injEq] at h
      subst h
      simp [Effect.calls, deliveries, enqueuedDuring]
    | cons e q => simp [EventManager.dispatchLoop] at h
  | succ n ih =>
    intro s q r h
    cases q with
    | nil =>
      simp only [EventManager.dispatchLoop, Option.some.injEq] at h
      subst h
      simp [Effect.calls, deliveries, enqueuedDuring]
    | cons e q =>
      simp only [EventManager.dispatchLoop] at h
      cases hrec : EventManager.dispatchLoop OnEvent n (OnEvent s e).1 (q ++ (OnEvent s e).2) with
      | none => simp [hrec] at h
      | some r1 =>
        simp only [hrec, Option.some.injEq] at h
        subst h
        obtain ⟨h1, h2, h3, h4⟩ := ih _ _ _ hrec
        refine ⟨h1, ?_, ?_, ?_⟩
        · simp only [Effect.calls, deliveries]
          rw [← h2]
        · simp only [Effect.calls, enqueuedDuring]
          rw [List.cons_append, List.cons.injEq]
          refine ⟨rfl, ?_⟩
          rw [← List.append_assoc]
          exact h3
        · simp only [Effect.calls, List.foldl]
          exact h4

/-- C1: for every sequence of events added with `AddEvent` to a fresh manager and
every receiver whose `OnEvent` adds no event, one call of `DispatchAllEvents`
(with one unit of fuel per event) returns, has invoked `OnEvent` exactly once on
each event, in the order they were added, has left the queue empty, and a
dispatch directly afterwards makes no receiver call. -/
theorem C1_dispatch_fifo {σ ε : Type} (OnEvent : σ → ε → σ × List ε)
    (hno : ∀ s e, (OnEvent s e).2 = []) (s : σ) (es : List ε) (fuel : Nat)
    (hfuel : es.length ≤ fuel) :
    ∃ r, EventManager.DispatchAllEvents fuel OnEvent s
          (es.foldl EventManager.AddEvent EventManager.new) = some r ∧
      Effect.calls r.trace = es ∧
      (Effect.calls r.trace).length = es.length ∧
      r.trace = deliveries es ∧
      r.receiver = es.foldl (fun t e => (OnEvent t e).1) s ∧
      r.manager.m_EventQueue = [] ∧
      ∀ fuel2, EventManager.DispatchAllEvents fuel2 OnEvent r.receiver r.manager =
        some { receiver := r.receiver, manager := r.manager, trace := [] } := by
  have hq : (es.foldl EventManager.AddEvent EventManager.new).m_EventQueue = es := by
    rw [queue_foldl_AddEvent]; rfl
  have h := DispatchAllEvents_of_no_add OnEvent hno fuel s
    (es.foldl EventManager.AddEvent EventManager.new) (by rw [hq]; exact hfuel)
  rw [hq] at h
  refine ⟨_, h, ?_, ?_, rfl, rfl, rfl, ?_⟩
  · exact calls_deliveries es
  · rw [calls_deliveries]
  · intro fuel2
    rfl

/-- C1, at a concrete input: three events and a counting receiver. -/
theorem C1_dispatch_fifo_witness :
    ∃ r, EventManager.DispatchAllEvents 3 countingReceiver 0
          ([5, 6, 7].foldl EventManager.AddEvent EventManager.new) = some r ∧
      Effect.calls r.trace = [5, 6, 7] ∧
      (Effect.calls r.trace).length = [5, 6, 7].length ∧
      r.trace = deliveries [5, 6, 7] ∧
      r.receiver = [5, 6, 7].foldl (fun t e => (countingReceiver t e).1) 0 ∧
      r.manager.m_EventQueue = [] ∧
      ∀ fuel2, EventManager.DispatchAllEvents fuel2 countingReceiver r.receiver r.manager =
        some { receiver := r.receiver, manager := r.manager, trace := [] } :=
  C1_dispatch_fifo countingReceiver (fun _ _ => rfl) 0 [5, 6, 7] 3 (by decide)

/-- C2, as stated, fails: with the event `0` queued and a receiver that enqueues
the event `1` while handling `0`, one call of `DispatchAllEvents` hands over
`0` and then `1` in the same pass and returns with an empty queue; the event
enqueued during the dispatch is neither held back nor still queued. -/
theorem C2_counterexample :
    EventManager.DispatchAllEvents 2 chainReceiver 0 { m_EventQueue := [0] } =
      some { receiver := 2, manager := { m_EventQueue := [] },
             trace := [.onEvent 0, .delete 0, .onEvent 1, .delete 1] } ∧
    enqueuedDuring chainReceiver 0 [0] = [1] ∧
    Effect.calls [Effect.onEvent 0, .delete 0, .onEvent 1, .delete 1] ≠ [0] ∧
    1 ∉ ([] : List Nat) := by
  decide

/-- Whenever `DispatchAllEvents` returns, the queue is empty and the events handed
over are the events queued at call entry followed by the events enqueued during
the call. -/
theorem DispatchAllEvents_some {σ ε : Type} (OnEvent : σ → ε → σ × List ε)
    (fuel : Nat) (s : σ) (em : EventManager ε) (r : Dispatched σ ε)
    (h : EventManager.DispatchAllEvents fuel OnEvent s em = some r) :
    r.manager.m_EventQueue = [] ∧
    Effect.calls r.trace =
      em.m_EventQueue ++ enqueuedDuring OnEvent s (Effect.calls r.trace) ∧
    r.trace = deliveries (Effect.calls r.trace) ∧
    r.receiver = (Effect.calls r.trace).foldl (fun t e => (OnEvent t e).1) s := by
  obtain ⟨q⟩ := em
  cases q with
  | nil =>
    simp only [EventManager.DispatchAllEvents, List.isEmpty_nil, if_true,
      Option.some.injEq] at h
    subst h
    simp [Effect.calls, deliveries, enqueuedDuring]
  | cons e q =>
    have h2 : EventManager.dispatchLoop OnEvent fuel s (e :: q) = some r := by
      simpa [EventManager.DispatchAllEvents] using h
    obtain ⟨h1, h3, h4, h5⟩ := dispatchLoop_some OnEvent fuel s (e :: q) r h2
    exact ⟨h1, h4, h3, h5⟩

theorem enqueuedDuring_of_no_add {σ ε : Type} (OnEvent : σ → ε → σ × List ε)
    (hno : ∀ s e, (OnEvent s e).2 = []) (delivered : List ε) (s : σ) :
    enqueuedDuring OnEvent s delivered = [] := by
  induction delivered generalizing s with
  | nil => rfl
  | cons e es ih => simp [enqueuedDuring, hno, ih]

/-- More fuel does not change what the loop returns. -/
theorem dispatchLoop_mono {σ ε : Type} (OnEvent : σ → ε → σ × List ε) :
    ∀ (fuel : Nat) (s : σ) (q : List ε) (r : Dispatched σ ε),
      EventManager.dispatchLoop OnEvent fuel s q = some r →
      ∀ fuel2, fuel ≤ fuel2 → EventManager.dispatchLoop OnEvent fuel2 s q = some r := by
  intro fuel
  induction fuel with
  | zero =>
    intro s q r h fuel2 _
    cases q with
    | nil =>
      cases fuel2 with
      | zero => exact h
      | succ m => simpa [EventManager.dispatchLoop] using h
    | cons e q => simp [EventManager.dispatchLoop] at h
  | succ n ih =>
    intro s q r h fuel2 hle
    cases q with
    | nil =>
      cases fuel2 with
      | zero => simpa [EventManager.dispatchLoop] using h
      | succ m => simpa [EventManager.dispatchLoop] using h
    | cons e q =>
      cases fuel2 with
      | zero => omega
      | succ m =>
        simp only [EventManager.dispatchLoop] at h ⊢
        cases hrec : EventManager.dispatchLoop OnEvent n (OnEvent s e).1
            (q ++ (OnEvent s e).2) with
        | none => simp [hrec] at h
        | some r1 =>
          rw [hrec] at h
          rw [ih _ _ r1 hrec m (by omega)]
          exact h

/-- C2, amended: for every queue and every receiver, also one whose `OnEvent`
calls `AddEvent` during the dispatch, whenever one call of `DispatchAllEvents`
returns, the queue is empty and the events handed to the receiver are the events
queued at call entry, in order, followed by the events enqueued during the
dispatch, in the order they were enqueued: those are delivered in the same pass
and none is left for the next one. The outcome does not depend on the fuel: any
larger fuel gives the same result. -/
theorem C2_dispatch_drains_enqueued {σ ε : Type} (OnEvent : σ → ε → σ × List ε)
    (fuel : Nat) (s : σ) (em : EventManager ε) (r : Dispatched σ ε)
    (h : EventManager.DispatchAllEvents fuel OnEvent s em = some r) :
    r.manager.m_EventQueue = [] ∧
    Effect.calls r.trace =
      em.m_EventQueue ++ enqueuedDuring OnEvent s (Effect.calls r.trace) ∧
    r.trace = deliveries (Effect.calls r.trace) ∧
    r.receiver = (Effect.calls r.trace).foldl (fun t e => (OnEvent t e).1) s ∧
    ∀ fuel2, fuel ≤ fuel2 → EventManager.DispatchAllEvents fuel2 OnEvent s em = some r := by
  obtain ⟨h1, h2, h3, h4⟩ := DispatchAllEvents_some OnEvent fuel s em r h
  refine ⟨h1, h2, h3, h4, ?_⟩
  intro fuel2 hle
  obtain ⟨q⟩ := em
  cases q with
  | nil => exact h
  | cons e q =>
    have hloop : EventManager.dispatchLoop OnEvent fuel s (e :: q) = some r := by
      simpa [EventManager.DispatchAllEvents] using h
    have hloop2 := dispatchLoop_mono OnEvent fuel s (e :: q) r hloop fuel2 hle
    simpa [EventManager.DispatchAllEvents] using hloop2

/-- C2 amended, at a concrete input: the receiver enqueues `1` while handling `0`. -/
theorem C2_dispatch_drains_enqueued_witness :
    EventManager.DispatchAllEvents 2 chainReceiver 0 { m_EventQueue := [0] } =
      some { receiver := 2, manager := { m_EventQueue := [] },
             trace := [.onEvent 0, .delete 0, .onEvent 1, .delete 1] } ∧
    (([] : List Nat) = [] ∧
      Effect.calls [Effect.onEvent 0, .delete 0, .onEvent 1, .delete 1] =
        [0] ++ enqueuedDuring chainReceiver 0
          (Effect.calls [Effect.onEvent 0, .delete 0, .onEvent 1, .delete 1]) ∧
      [Effect.onEvent 0, .delete 0, .onEvent 1, .delete 1] =
        deliveries (Effect.calls [Effect.onEvent 0, .delete 0, .onEvent 1, .delete 1]) ∧
      2 = (Effect.calls [Effect.onEvent 0, .delete 0, .onEvent 1, .delete 1]).foldl
        (fun t e => (chainReceiver t e).1) 0 ∧
      ∀ fuel2, 2 ≤ fuel2 →
        EventManager.DispatchAllEvents fuel2 chainReceiver 0 { m_EventQueue := [0] } =
          some { receiver := 2, manager := { m_EventQueue := [] },
                 trace := [.onEvent 0, .delete 0, .onEvent 1, .delete 1] }) :=
  ⟨by decide,
    C2_dispatch_drains_enqueued chainReceiver 2 0 { m_EventQueue := [0] }
      { receiver := 2, manager := { m_EventQueue := [] },
        trace := [.onEvent 0, .delete 0, .onEvent 1, .delete 1] } (by decide)⟩

theorem destructorLoop_eq {ε : Type} (q : List ε) :
    EventManager.destructorLoop q = ([], q.map Effect.delete) := by
  induction q with
  | nil => rfl
  | cons e q ih => simp [EventManager.destructorLoop, ih]

theorem calls_map_delete {ε : Type} (q : List ε) :
    Effect.calls (q.map Effect.delete) = [] := by
  induction q with
  | nil => rfl
  | cons e q ih => simpa [Effect.calls] using ih

theorem deletes_map_delete {ε : Type} (q : List ε) :
    Effect.deletes (q.map Effect.delete) = q := by
  induction q with
  | nil => rfl
  | cons e q ih => simpa [Effect.deletes] using ih

/-- C8: destroying an event manager that holds K queued events releases each of
the K events exactly once, in queue order, leaves the queue empty, and invokes
no receiver `OnEvent`. -/
theorem C8_destructor_releases_all {ε : Type} (em : EventManager ε) :
    em.destructor.2 = em.m_EventQueue.map Effect.delete ∧
    Effect.deletes em.destructor.2 = em.m_EventQueue ∧
    (Effect.deletes em.destructor.2).length = em.m_EventQueue.length ∧
    Effect.calls em.destructor.2 = [] ∧
    em.destructor.1.m_EventQueue = [] := by
  simp [EventManager.destructor, destructorLoop_eq, calls_map_delete, deletes_map_delete]

end fw

/-! ## Properties of the controller -/

theorem stdMask_singleBit : SingleBitMasks stdMask := by
  refine ⟨fun a => ?_, fun a b h => ?_⟩
  · cases a
    · exact ⟨0, by decide, rfl⟩
    · exact ⟨1, by decide, rfl⟩
    · exact ⟨2, by decide, rfl⟩
    · exact ⟨3, by decide, rfl⟩
    · exact ⟨4, by decide, rfl⟩
  · cases a <;> cases b <;> first | rfl | (exact absurd h (by decide))

theorem complement32_two_pow_testBit (k j : Nat) (hk : k < 32) :
    (complement32 (2 ^ k)).testBit j = (decide (j < 32) && !decide (k = j)) := by
  have hlt : 2 ^ k < 2 ^ 32 := Nat.pow_lt_pow_right (by decide) hk
  have hrw : complement32 (2 ^ k) = 2 ^ 32 - (2 ^ k + 1) := by
    unfold complement32
    rw [Nat.mod_eq_of_lt hlt]
    omega
  rw [hrw, Nat.testBit_two_pow_sub_succ hlt, Nat.testBit_two_pow]

theorem isHeld_two_pow (c : Controller) (k : Nat) :
    c.IsHeld (2 ^ k) = c.m_Flags.testBit k := by
  unfold Controller.IsHeld
  rw [Nat.and_two_pow]
  have hpos : 2 ^ k ≠ 0 := by positivity
  cases c.m_Flags.testBit k <;> simp [hpos]

theorem OnEvent_pressed {Obj : Type} (mask : Mask → Nat) (c : Controller) (key : Int)
    (a : Mask) (ha : keyAction key = some a) :
    Controller.OnEvent mask c (.InputEvent .Keyboard .Pressed key : fw.Event Obj) =
      { c with m_Flags := c.m_Flags ||| mask a } := by
  unfold keyAction at ha
  simp only [Controller.OnEvent, KEY_W, KEY_S, KEY_A, KEY_D, KEY_Z, VK_UP, VK_DOWN, VK_LEFT,
    VK_RIGHT]
  split_ifs at ha ⊢ <;> simp_all

theorem OnEvent_released {Obj : Type} (mask : Mask → Nat) (c : Controller) (key : Int)
    (a : Mask) (ha : keyAction key = some a) :
    Controller.OnEvent mask c (.InputEvent .Keyboard .Released key : fw.Event Obj) =
      { c with m_Flags := c.m_Flags &&& complement32 (mask a) } := by
  unfold keyAction at ha
  simp only [Controller.OnEvent, KEY_W, KEY_S, KEY_A, KEY_D, KEY_Z, VK_UP, VK_DOWN, VK_LEFT,
    VK_RIGHT]
  split_ifs at ha ⊢ <;> simp_all

theorem OnEvent_unmapped {Obj : Type} (mask : Mask → Nat) (c : Controller)
    (d : fw.DeviceType) (st : fw.DeviceState) (key : Int) (ha : keyAction key = none) :
    Controller.OnEvent mask c (.InputEvent d st key : fw.Event Obj) = c := by
  unfold keyAction at ha
  simp only [Controller.OnEvent, KEY_W, KEY_S, KEY_A, KEY_D, KEY_Z, VK_UP, VK_DOWN, VK_LEFT,
    VK_RIGHT]
  split_ifs at ha ⊢ <;> simp_all

theorem OnEvent_other_device {Obj : Type} (mask : Mask → Nat) (c : Controller)
    (d : fw.DeviceType) (st : fw.DeviceState) (key : Int) (hd : d ≠ .Keyboard) :
    Controller.OnEvent mask c (.InputEvent d st key : fw.Event Obj) = c := by
  simp [Controller.OnEvent, hd]

theorem OnEvent_other_state {Obj : Type} (mask : Mask → Nat) (c : Controller)
    (d : fw.DeviceType) (st : fw.DeviceState) (key : Int) (hp : st ≠ .Pressed)
    (hr : st ≠ .Released) :
    Controller.OnEvent mask c (.InputEvent d st key : fw.Event Obj) = c := by
  simp [Controller.OnEvent, hp, hr]

theorem OnEvent_oldFlags {Obj : Type} (mask : Mask → Nat) (c : Controller)
    (e : fw.Event Obj) : (Controller.OnEvent mask c e).m_OldFlags = c.m_OldFlags := by
  cases e with
  | InputEvent d st key =>
    simp only [Controller.OnEvent]
    split_ifs <;> rfl
  | WindowResizeEvent w h => rfl
  | OnCharEvent v => rfl
  | RemoveFromGameEvent o => rfl

/-- The held state of an action after one event, in terms of the transition the
specification attaches to the event. -/
theorem isHeld_OnEvent {Obj : Type} (mask : Mask → Nat) (hm : SingleBitMasks mask)
    (c : Controller) (e : fw.Event Obj) (a : Mask) :
    (Controller.OnEvent mask c e).IsHeld (mask a) =
      (transitionOf a e).getD (c.IsHeld (mask a)) := by
  obtain ⟨k, hk, hka⟩ := hm.1 a
  have hother : ∀ b, b ≠ a → ∀ kb, mask b = 2 ^ kb → kb ≠ k := by
    intro b hb kb hkb hEq
    apply hb
    apply hm.2
    rw [hkb, hka, hEq]
  cases e with
  | InputEvent d st key =>
    cases hkey : keyAction key with
    | none =>
      rw [OnEvent_unmapped mask c d st key hkey]
      cases d <;> cases st <;> simp [transitionOf, hkey]
    | some b =>
      obtain ⟨kb, hkb, hkbm⟩ := hm.1 b
      cases d with
      | Other i =>
        rw [OnEvent_other_device mask c _ st key (by simp)]
        simp [transitionOf]
      | Keyboard =>
        cases st with
        | Other i =>
          rw [OnEvent_other_state mask c _ _ key (by simp) (by simp)]
          simp [transitionOf]
        | Pressed =>
          rw [OnEvent_pressed mask c key b hkey, hka, isHeld_two_pow, isHeld_two_pow, hkbm]
          simp only [Nat.testBit_or, Nat.testBit_two_pow, transitionOf, hkey]
          by_cases hba : b = a
          · subst hba
            have : kb = k := Nat.pow_right_injective (le_refl 2) (hkbm.symm.trans hka)
            simp [this]
          · have hne := hother b hba kb hkbm
            simp [hne, hba]
        | Released =>
          rw [OnEvent_released mask c key b hkey, hka, isHeld_two_pow, isHeld_two_pow, hkbm]
          simp only [Nat.testBit_and, complement32_two_pow_testBit kb k hkb, transitionOf, hkey]
          by_cases hba : b = a
          · subst hba
            have : kb = k := Nat.pow_right_injective (le_refl 2) (hkbm.symm.trans hka)
            simp [this]
          · have hne := hother b hba kb hkbm
            simp [hne, hba, hk]
  | WindowResizeEvent w h => simp [Controller.OnEvent, transitionOf]
  | OnCharEvent v => simp [Controller.OnEvent, transitionOf]
  | RemoveFromGameEvent o => simp [Controller.OnEvent, transitionOf]

theorem foldl_OnEvent_oldFlags {Obj : Type} (mask : Mask → Nat) (events : List (fw.Event Obj))
    (c : Controller) :
    (events.foldl (Controller.OnEvent mask) c).m_OldFlags = c.m_OldFlags := by
  induction events generalizing c with
  | nil => rfl
  | cons e es ih => simp [List.foldl, ih, OnEvent_oldFlags]

theorem specHeld_eq_lastTransition {Obj : Type} (a : Mask) (events : List (fw.Event Obj))
    (held : Bool) : specHeld a held events = (lastTransition a events).getD held := by
  induction events generalizing held with
  | nil => rfl
  | cons e es ih =>
    simp only [specHeld, List.foldl, lastTransition]
    have := ih ((transitionOf a e).getD held)
    simp only [specHeld] at this
    rw [this]
    cases lastTransition a es <;> simp

/-- The held state of an action after a pass of events is the state the
specification's state machine reaches from the held state before the pass. -/
theorem isHeld_foldl_OnEvent {Obj : Type} (mask : Mask → Nat) (hm : SingleBitMasks mask)
    (events : List (fw.Event Obj)) (c : Controller) (a : Mask) :
    (events.foldl (Controller.OnEvent mask) c).IsHeld (mask a) =
      specHeld a (c.IsHeld (mask a)) events := by
  induction events generalizing c with
  | nil => rfl
  | cons e es ih =>
    simp only [List.foldl, specHeld]
    rw [ih, isHeld_OnEvent mask hm]
    rfl

theorem runFrame_oldFlags {Obj : Type} (mask : Mask → Nat) (c : Controller)
    (events : List (fw.Event Obj)) :
    (Controller.runFrame mask c events).m_OldFlags = c.m_Flags := by
  simp [Controller.runFrame, foldl_OnEvent_oldFlags, Controller.StartFrame]

theorem isHeld_runFrame {Obj : Type} (mask : Mask → Nat) (hm : SingleBitMasks mask)
    (c : Controller) (events : List (fw.Event Obj)) (a : Mask) :
    (Controller.runFrame mask c events).IsHeld (mask a) =
      specHeld a (c.IsHeld (mask a)) events := by
  unfold Controller.runFrame
  rw [isHeld_foldl_OnEvent mask hm]
  rfl

theorem wasPressed_runFrame {Obj : Type} (mask : Mask → Nat) (c : Controller)
    (events : List (fw.Event Obj)) (m : Nat) :
    (Controller.runFrame mask c events).WasPressed m =
      ((Controller.runFrame mask c events).IsHeld m && !c.IsHeld m) := by
  simp [Controller.WasPressed, Controller.IsHeld, runFrame_oldFlags, bne]

theorem wasReleased_runFrame {Obj : Type} (mask : Mask → Nat) (c : Controller)
    (events : List (fw.Event Obj)) (m : Nat) :
    (Controller.runFrame mask c events).WasReleased m =
      (!(Controller.runFrame mask c events).IsHeld m && c.IsHeld m) := by
  simp [Controller.WasReleased, Controller.IsHeld, runFrame_oldFlags, bne]

theorem isHeld_of_flags_zero (c : Controller) (h : c.m_Flags = 0) (m : Nat) :
    c.IsHeld m = false := by
  simp [Controller.IsHeld, h]

theorem OnEvent_flags_lt {Obj : Type} (mask : Mask → Nat) (hm : SingleBitMasks mask)
    (c : Controller) (hc : c.m_Flags < 2 ^ 32) (e : fw.Event Obj) :
    (Controller.OnEvent mask c e).m_Flags < 2 ^ 32 := by
  cases e with
  | InputEvent d st key =>
    cases hkey : keyAction key with
    | none => rw [OnEvent_unmapped mask c d st key hkey]; exact hc
    | some b =>
      obtain ⟨kb, hkb, hkbm⟩ := hm.1 b
      cases d with
      | Other i => rw [OnEvent_other_device mask c _ st key (by simp)]; exact hc
      | Keyboard =>
        cases st with
        | Other i => rw [OnEvent_other_state mask c _ _ key (by simp) (by simp)]; exact hc
        | Pressed =>
          rw [OnEvent_pressed mask c key b hkey, hkbm]
          exact Nat.or_lt_two_pow hc (Nat.pow_lt_pow_right (by decide) hkb)
        | Released =>
          rw [OnEvent_released mask c key b hkey]
          exact lt_of_le_of_lt Nat.and_le_left hc
  | WindowResizeEvent w h => exact hc
  | OnCharEvent v => exact hc
  | RemoveFromGameEvent o => exact hc

/-- C5: `Controller::OnEvent` is the per-bit state machine of the specification.
For a keyboard input event whose key code is mapped to an action (W or Up, S or
Down, A or Left, D or Right, Z), on 32-bit flags: with state Pressed the current
flags afterwards are the flags before with exactly the action's bit set, with
state Released with exactly that bit cleared, every other bit unchanged. Every
other event (not an input event, not from the keyboard, an unmapped key code,
neither pressed nor released) leaves the controller as it is; no event changes
the previous-frame flags, and the flags stay a 32-bit word. -/
theorem C5_OnEvent_state_machine {Obj : Type} (mask : Mask → Nat)
    (hm : SingleBitMasks mask) (c : Controller) (hc : c.m_Flags < 2 ^ 32) :
    (∀ key a k, keyAction key = some a → mask a = 2 ^ k →
      (Controller.OnEvent mask c
        (.InputEvent .Keyboard .Pressed key : fw.Event Obj)).m_Flags = c.m_Flags ||| 2 ^ k ∧
      ∀ j, (Controller.OnEvent mask c
        (.InputEvent .Keyboard .Pressed key : fw.Event Obj)).m_Flags.testBit j =
          (decide (j = k) || c.m_Flags.testBit j)) ∧
    (∀ key a k, keyAction key = some a → mask a = 2 ^ k →
      ∀ j, (Controller.OnEvent mask c
        (.InputEvent .Keyboard .Released key : fw.Event Obj)).m_Flags.testBit j =
          (!decide (j = k) && c.m_Flags.testBit j)) ∧
    (∀ w h, Controller.OnEvent mask c (.WindowResizeEvent w h : fw.Event Obj) = c) ∧
    (∀ v, Controller.OnEvent mask c (.OnCharEvent v : fw.Event Obj) = c) ∧
    (∀ o : Obj, Controller.OnEvent mask c (.RemoveFromGameEvent o) = c) ∧
    (∀ d st key, d ≠ fw.DeviceType.Keyboard →
      Controller.OnEvent mask c (.InputEvent d st key : fw.Event Obj) = c) ∧
    (∀ d st key, keyAction key = none →
      Controller.OnEvent mask c (.InputEvent d st key : fw.Event Obj) = c) ∧
    (∀ d st key, st ≠ fw.DeviceState.Pressed → st ≠ fw.DeviceState.Released →
      Controller.OnEvent mask c (.InputEvent d st key : fw.Event Obj) = c) ∧
    (∀ e : fw.Event Obj, (Controller.OnEvent mask c e).m_OldFlags = c.m_OldFlags) ∧
    (∀ e : fw.Event Obj, (Controller.OnEvent mask c e).m_Flags < 2 ^ 32) := by
  refine ⟨?_, ?_, fun _ _ => rfl, fun _ => rfl, fun _ => rfl, ?_, ?_, ?_, ?_, ?_⟩
  · intro key a k hkey hk
    rw [OnEvent_pressed mask c key a hkey, hk]
    refine ⟨rfl, fun j => ?_⟩
    simp only [Nat.testBit_or, Nat.testBit_two_pow]
    by_cases hjk : j = k
    · subst hjk; simp
    · have : k ≠ j := fun h => hjk h.symm
      simp [hjk, this]
  · intro key a k hkey hk j
    obtain ⟨k2, hk2, hk2m⟩ := hm.1 a
    have hkk : k2 = k := Nat.pow_right_injective (le_refl 2) (hk2m.symm.trans hk)
    subst hkk
    rw [OnEvent_released mask c key a hkey, hk]
    simp only [Nat.testBit_and, complement32_two_pow_testBit k2 j hk2]
    by_cases hjk : j = k2
    · subst hjk; simp
    · have hne : k2 ≠ j := fun h => hjk h.symm
      by_cases hj : j < 32
      · simp [hjk, hne, hj]
      · have hfalse : c.m_Flags.testBit j = false := by
          apply Nat.testBit_lt_two_pow
          exact lt_of_lt_of_le hc (Nat.pow_le_pow_right (by decide) (by omega))
        simp [hfalse]
  · intro d st key hd
    exact OnEvent_other_device mask c d st key hd
  · intro d st key hkey
    exact OnEvent_unmapped mask c d st key hkey
  · intro d st key hp hr
    exact OnEvent_other_state mask c d st key hp hr
  · intro e
    exact OnEvent_oldFlags mask c e
  · intro e
    exact OnEvent_flags_lt mask hm c hc e

/-- C5, at a concrete input: the bits 0 to 4 as masks and the flags `0b10101`. -/
theorem C5_OnEvent_state_machine_witness :
    SingleBitMasks stdMask ∧ (21 : Nat) < 2 ^ 32 ∧
    (Controller.OnEvent stdMask { m_Flags := 21, m_OldFlags := 7 }
      (.InputEvent .Keyboard .Pressed KEY_S : fw.Event Nat)).m_Flags = 21 ||| 2 ^ 1 ∧
    (∀ j, (Controller.OnEvent stdMask { m_Flags := 21, m_OldFlags := 7 }
      (.InputEvent .Keyboard .Released KEY_Z : fw.Event Nat)).m_Flags.testBit j =
        (!decide (j = 4) && (21 : Nat).testBit j)) ∧
    (∀ e : fw.Event Nat,
      (Controller.OnEvent stdMask { m_Flags := 21, m_OldFlags := 7 } e).m_OldFlags = 7) :=
  ⟨stdMask_singleBit, by decide,
    ((C5_OnEvent_state_machine stdMask stdMask_singleBit
      { m_Flags := 21, m_OldFlags := 7 } (by decide)).1 KEY_S .Down 1 (by decide) (by decide)).1,
    (C5_OnEvent_state_machine stdMask stdMask_singleBit
      { m_Flags := 21, m_OldFlags := 7 } (by decide)).2.1 KEY_Z .Action 4 (by decide)
        (by decide),
    (C5_OnEvent_state_machine stdMask stdMask_singleBit
      { m_Flags := 21, m_OldFlags := 7 } (by decide)).2.2.2.2.2.2.2.2.1⟩

/-- C4: the events of one pass handed to `Controller::OnEvent` by
`DispatchAllEvents` leave each action held or released as the last keyboard press
or release of the pass whose key code maps to the action says (held for a press,
released for a release), and as it was before the pass when no event maps to it. From clear flags and one
`StartFrame`, the pass KeyDown W, KeyDown Z, KeyUp W leaves Up released, Action
held, and Action pressed in this frame. -/
theorem C4_last_event_decides {Obj : Type} (mask : Mask → Nat) (hm : SingleBitMasks mask)
    (c : Controller) (events : List (fw.Event Obj)) (a : Mask) (fuel : Nat)
    (hfuel : events.length ≤ fuel) :
    (∃ r, fw.EventManager.DispatchAllEvents fuel
        (fun s e => (Controller.OnEvent mask s e, ([] : List (fw.Event Obj)))) c
        { m_EventQueue := events } = some r ∧
      fw.Effect.calls r.trace = events ∧
      r.receiver = events.foldl (Controller.OnEvent mask) c ∧
      r.receiver.IsHeld (mask a) =
        (match lastTransition a events with
          | some pressed => pressed
          | none => c.IsHeld (mask a))) ∧
    (c.m_Flags = 0 →
      (Controller.runFrame mask c
        ([KeyDown KEY_W, KeyDown KEY_Z, KeyUp KEY_W] : List (fw.Event Obj))).IsHeld
          (mask .Up) = false ∧
      (Controller.runFrame mask c
        ([KeyDown KEY_W, KeyDown KEY_Z, KeyUp KEY_W] : List (fw.Event Obj))).IsHeld
          (mask .Action) = true ∧
      (Controller.runFrame mask c
        ([KeyDown KEY_W, KeyDown KEY_Z, KeyUp KEY_W] : List (fw.Event Obj))).WasPressed
          (mask .Action) = true) := by
  constructor
  · have h := fw.DispatchAllEvents_of_no_add
      (fun s e => (Controller.OnEvent mask s e, ([] : List (fw.Event Obj))))
      (fun _ _ => rfl) fuel c { m_EventQueue := events } hfuel
    refine ⟨_, h, fw.calls_deliveries events, rfl, ?_⟩
    show (events.foldl (Controller.OnEvent mask) c).IsHeld (mask a) = _
    rw [isHeld_foldl_OnEvent mask hm, specHeld_eq_lastTransition]
    cases lastTransition a events <;> rfl
  · intro hc
    have h0 : ∀ m, c.IsHeld m = false := isHeld_of_flags_zero c hc
    refine ⟨?_, ?_, ?_⟩
    · rw [isHeld_runFrame mask hm, h0]; rfl
    · rw [isHeld_runFrame mask hm, h0]; rfl
    · rw [wasPressed_runFrame, isHeld_runFrame mask hm, h0]; rfl

/-- C4, at a concrete input: the scenario of the specification with the bits 0 to
4 as masks. -/
theorem C4_last_event_decides_witness :
    SingleBitMasks stdMask ∧ scenarioEvents.length ≤ 3 ∧ clearController.m_Flags = 0 ∧
    (∃ r, fw.EventManager.DispatchAllEvents 3
        (fun s e => (Controller.OnEvent stdMask s e, ([] : List (fw.Event Nat))))
        clearController { m_EventQueue := scenarioEvents } = some r ∧
      fw.Effect.calls r.trace = scenarioEvents ∧
      r.receiver = scenarioEvents.foldl (Controller.OnEvent stdMask) clearController ∧
      r.receiver.IsHeld (stdMask .Action) =
        (match lastTransition .Action scenarioEvents with
          | some pressed => pressed
          | none => clearController.IsHeld (stdMask .Action))) ∧
    (Controller.runFrame stdMask clearController scenarioEvents).IsHeld (stdMask .Up) = false ∧
    (Controller.runFrame stdMask clearController scenarioEvents).IsHeld
      (stdMask .Action) = true ∧
    (Controller.runFrame stdMask clearController scenarioEvents).WasPressed
      (stdMask .Action) = true :=
  ⟨stdMask_singleBit, by decide, rfl,
    (C4_last_event_decides stdMask stdMask_singleBit clearController scenarioEvents
      .Action 3 (by decide)).1,
    (C4_last_event_decides stdMask stdMask_singleBit clearController scenarioEvents
      .Action 3 (by decide)).2 rfl⟩

/-! ## Properties of the game -/

theorem Game.OnEvent_remove_mem {Obj : Type} [DecidableEq Obj] (mask : Mask → Nat)
    (g : Game Obj) (X : Obj) (hX : X ∈ g.m_Objects) :
    Game.OnEvent mask g (.RemoveFromGameEvent X) =
      some { g with
        m_Objects := g.m_Objects.erase X
        deletedObjects := g.deletedObjects ++ [X] } := by
  have hlt : List.indexOf X g.m_Objects < g.m_Objects.length := List.indexOf_lt_length.mpr hX
  simp [Game.OnEvent, Controller.OnEvent, hlt, List.eraseIdx_indexOf_eq_erase]

theorem Game.OnEvent_remove_not_mem {Obj : Type} [DecidableEq Obj] (mask : Mask → Nat)
    (g : Game Obj) (X : Obj) (hX : X ∉ g.m_Objects) :
    Game.OnEvent mask g (.RemoveFromGameEvent X) = none := by
  have hlt : ¬ List.indexOf X g.m_Objects < g.m_Objects.length :=
    fun h => hX (List.indexOf_lt_length.mp h)
  simp [Game.OnEvent, Controller.OnEvent, hlt]

theorem Game.OnEvent_not_remove {Obj : Type} [DecidableEq Obj] (mask : Mask → Nat)
    (g : Game Obj) (e : fw.Event Obj) (he : ∀ Y, e ≠ .RemoveFromGameEvent Y) :
    ∃ g', Game.OnEvent mask g e = some g' ∧ g'.m_Objects = g.m_Objects ∧
      g'.deletedObjects = g.deletedObjects ∧
      g'.m_pController = Controller.OnEvent mask g.m_pController e ∧
      g'.m_pEventManager = g.m_pEventManager := by
  cases e with
  | InputEvent d st key => exact ⟨_, rfl, rfl, rfl, rfl, rfl⟩
  | WindowResizeEvent w h => exact ⟨_, rfl, rfl, rfl, rfl, rfl⟩
  | OnCharEvent v => exact ⟨_, rfl, rfl, rfl, rfl, rfl⟩
  | RemoveFromGameEvent o => exact absurd rfl (he o)

theorem Game.OnEvent_some {Obj : Type} [DecidableEq Obj] (mask : Mask → Nat)
    (g g' : Game Obj) (e : fw.Event Obj) (h : Game.OnEvent mask g e = some g') :
    g'.m_pController = Controller.OnEvent mask g.m_pController e ∧
    g'.m_pEventManager = g.m_pEventManager := by
  cases e with
  | InputEvent d st key =>
    obtain ⟨g2, h2, -, -, hc, hq⟩ :=
      Game.OnEvent_not_remove mask g (.InputEvent d st key) (fun Y => by simp)
    rw [h] at h2; cases h2; exact ⟨hc, hq⟩
  | WindowResizeEvent w hh =>
    obtain ⟨g2, h2, -, -, hc, hq⟩ :=
      Game.OnEvent_not_remove mask g (.WindowResizeEvent w hh) (fun Y => by simp)
    rw [h] at h2; cases h2; exact ⟨hc, hq⟩
  | OnCharEvent v =>
    obtain ⟨g2, h2, -, -, hc, hq⟩ :=
      Game.OnEvent_not_remove mask g (.OnCharEvent v) (fun Y => by simp)
    rw [h] at h2; cases h2; exact ⟨hc, hq⟩
  | RemoveFromGameEvent o =>
    by_cases ho : o ∈ g.m_Objects
    · rw [Game.OnEvent_remove_mem mask g o ho] at h
      cases h
      exact ⟨rfl, rfl⟩
    · rw [Game.OnEvent_remove_not_mem mask g o ho] at h
      cases h

theorem Game.foldl_receiver_none {Obj : Type} [DecidableEq Obj] (mask : Mask → Nat)
    (q : List (fw.Event Obj)) :
    q.foldl (fun t e => (Game.receiver mask t e).1) none = none := by
  induction q with
  | nil => rfl
  | cons e q ih => simpa [List.foldl, Game.receiver] using ih

/-- Whenever a pass over the queue stays defined, the controller has seen every
event of the queue, in order, and the event manager is not touched. -/
theorem Game.foldl_receiver_some {Obj : Type} [DecidableEq Obj] (mask : Mask → Nat)
    (q : List (fw.Event Obj)) :
    ∀ (g g' : Game Obj), q.foldl (fun t e => (Game.receiver mask t e).1) (some g) = some g' →
      g'.m_pController = q.foldl (Controller.OnEvent mask) g.m_pController ∧
      g'.m_pEventManager = g.m_pEventManager := by
  induction q with
  | nil =>
    intro g g' h
    simp only [List.foldl, Option.some.injEq] at h
    subst h
    exact ⟨rfl, rfl⟩
  | cons e q ih =>
    intro g g' h
    simp only [List.foldl, Game.receiver] at h
    cases h1 : Game.OnEvent mask g e with
    | none =>
      rw [h1] at h
      have := Game.foldl_receiver_none mask q
      simp only [Game.receiver] at this
      rw [this] at h
      cases h
    | some g1 =>
      rw [h1] at h
      obtain ⟨hc, hq⟩ := ih g1 g' (by simpa [Game.receiver] using h)
      obtain ⟨hc1, hq1⟩ := Game.OnEvent_some mask g g1 e h1
      simp only [List.foldl]
      rw [hc, hq, hc1, hq1]
      exact ⟨rfl, rfl⟩

/-- The method `Game::StartFrame` with one unit of fuel per queued event: the
controller's `StartFrame`, then `Game::OnEvent` on every queued event in order. -/
theorem Game.StartFrame_eq {Obj : Type} [DecidableEq Obj] (mask : Mask → Nat) (fuel : Nat)
    (g : Game Obj) (hfuel : g.m_pEventManager.m_EventQueue.length ≤ fuel) :
    Game.StartFrame mask fuel g =
      some (match g.m_pEventManager.m_EventQueue.foldl
          (fun t e => (Game.receiver mask t e).1)
          (some { g with m_pController := g.m_pController.StartFrame }) with
        | none => none
        | some g2 => some { g2 with m_pEventManager := { m_EventQueue := [] } }) := by
  unfold Game.StartFrame
  simp only []
  rw [fw.DispatchAllEvents_of_no_add (Game.receiver mask) (fun _ _ => rfl) fuel _ _ hfuel]
  simp only []
  split <;> simp_all

/-- The controller after `Game::StartFrame` is the controller after its own part
of the frame. -/
theorem Game.StartFrame_controller {Obj : Type} [DecidableEq Obj] (mask : Mask → Nat)
    (fuel : Nat) (g g' : Game Obj) (h : Game.StartFrame mask fuel g = some (some g')) :
    g'.m_pController =
      Controller.runFrame mask g.m_pController g.m_pEventManager.m_EventQueue := by
  unfold Game.StartFrame at h
  simp only [] at h
  split at h
  · cases h
  · rename_i r hr
    obtain ⟨-, hcalls, -, hrec⟩ := fw.DispatchAllEvents_some (Game.receiver mask) fuel _ _ r hr
    rw [fw.enqueuedDuring_of_no_add (Game.receiver mask) (fun _ _ => rfl), List.append_nil]
      at hcalls
    rw [hcalls] at hrec
    split at h
    · cases h
    · rename_i g2 hg2
      simp only [Option.some.injEq] at h
      subst h
      rw [hg2] at hrec
      exact (Game.foldl_receiver_some mask _ _ g2 hrec.symm).1

theorem specHeld_append {Obj : Type} (a : Mask) (held : Bool) (l1 l2 : List (fw.Event Obj)) :
    specHeld a held (l1 ++ l2) = specHeld a (specHeld a held l1) l2 := by
  simp [specHeld, List.foldl_append]

theorem specHeld_no_press {Obj : Type} (a : Mask) (post : List (fw.Event Obj))
    (hpost : ∀ e ∈ post, transitionOf a e ≠ some true) : specHeld a false post = false := by
  induction post with
  | nil => rfl
  | cons e es ih =>
    have he := hpost e (List.mem_cons_self e es)
    have hes : ∀ x ∈ es, transitionOf a x ≠ some true :=
      fun x hx => hpost x (List.mem_cons_of_mem e hx)
    have hstep : (transitionOf a e).getD false = false := by
      cases ht : transitionOf a e with
      | none => rfl
      | some b =>
        cases b with
        | false => rfl
        | true => exact absurd ht he
    simp only [specHeld, List.foldl, hstep]
    exact ih hes

/-- C10: a tap inside one frame is unobservable. For every controller in which an
action is not held, after `StartFrame` and a pass of events that contains a press
and later a release of keys mapped to the action, with no press of it after that
release, `IsHeld`, `WasPressed` and `WasReleased` are all false for the action. -/
theorem C10_tap_unobservable {Obj : Type} (mask : Mask → Nat) (hm : SingleBitMasks mask)
    (c : Controller) (a : Mask) (hc : c.IsHeld (mask a) = false)
    (pre mid post : List (fw.Event Obj)) (k1 k2 : Int)
    (h1 : keyAction k1 = some a) (h2 : keyAction k2 = some a)
    (hpost : ∀ e ∈ post, transitionOf a e ≠ some true) :
    (Controller.runFrame mask c
      (pre ++ [KeyDown k1] ++ mid ++ [KeyUp k2] ++ post)).IsHeld (mask a) = false ∧
    (Controller.runFrame mask c
      (pre ++ [KeyDown k1] ++ mid ++ [KeyUp k2] ++ post)).WasPressed (mask a) = false ∧
    (Controller.runFrame mask c
      (pre ++ [KeyDown k1] ++ mid ++ [KeyUp k2] ++ post)).WasReleased (mask a) = false := by
  have _hpress := h1
  have hheld : (Controller.runFrame mask c
      (pre ++ [KeyDown k1] ++ mid ++ [KeyUp k2] ++ post)).IsHeld (mask a) = false := by
    rw [isHeld_runFrame mask hm, specHeld_append, specHeld_append]
    have hup : ∀ h : Bool, specHeld a h ([KeyUp k2] : List (fw.Event Obj)) = false := by
      intro h
      simp [specHeld, KeyUp, transitionOf, h2]
    rw [hup]
    exact specHeld_no_press a post hpost
  refine ⟨hheld, ?_, ?_⟩
  · rw [wasPressed_runFrame, hheld]; rfl
  · rw [wasReleased_runFrame, hheld, hc]; rfl

/-- C10, at a concrete input: Action tapped with Z between other events. -/
theorem C10_tap_unobservable_witness :
    SingleBitMasks stdMask ∧
    ({ m_Flags := 3, m_OldFlags := 16 } : Controller).IsHeld (stdMask .Action) = false ∧
    keyAction KEY_Z = some .Action ∧
    (∀ e ∈ ([KeyUp KEY_Z, KeyDown KEY_A] : List (fw.Event Nat)),
      transitionOf .Action e ≠ some true) ∧
    (Controller.runFrame stdMask { m_Flags := 3, m_OldFlags := 16 }
      ([KeyDown KEY_W] ++ [KeyDown KEY_Z] ++ [KeyUp KEY_W] ++ [KeyUp KEY_Z] ++
        ([KeyUp KEY_Z, KeyDown KEY_A] : List (fw.Event Nat)))).IsHeld
          (stdMask .Action) = false ∧
    (Controller.runFrame stdMask { m_Flags := 3, m_OldFlags := 16 }
      ([KeyDown KEY_W] ++ [KeyDown KEY_Z] ++ [KeyUp KEY_W] ++ [KeyUp KEY_Z] ++
        ([KeyUp KEY_Z, KeyDown KEY_A] : List (fw.Event Nat)))).WasPressed
          (stdMask .Action) = false ∧
    (Controller.runFrame stdMask { m_Flags := 3, m_OldFlags := 16 }
      ([KeyDown KEY_W] ++ [KeyDown KEY_Z] ++ [KeyUp KEY_W] ++ [KeyUp KEY_Z] ++
        ([KeyUp KEY_Z, KeyDown KEY_A] : List (fw.Event Nat)))).WasReleased
          (stdMask .Action) = false :=
  ⟨stdMask_singleBit, by decide, by decide, by decide,
    C10_tap_unobservable stdMask stdMask_singleBit { m_Flags := 3, m_OldFlags := 16 }
      .Action (by decide) [KeyDown KEY_W] [KeyUp KEY_W] [KeyUp KEY_Z, KeyDown KEY_A]
      KEY_Z KEY_Z (by decide) (by decide) (by decide)⟩

theorem removalTargets_append {Obj : Type} (l1 l2 : List (fw.Event Obj)) :
    fw.removalTargets (l1 ++ l2) = fw.removalTargets l1 ++ fw.removalTargets l2 := by
  induction l1 with
  | nil => rfl
  | cons e l1 ih => cases e <;> simp [fw.removalTargets, ih]

theorem mem_removalTargets {Obj : Type} (q : List (fw.Event Obj)) (X : Obj) :
    X ∈ fw.removalTargets q ↔ fw.Event.RemoveFromGameEvent X ∈ q := by
  induction q with
  | nil => simp [fw.removalTargets]
  | cons e q ih => cases e <;> simp [fw.removalTargets, ih]

theorem mem_foldl_erase {Obj : Type} [DecidableEq Obj] (ts : List Obj) :
    ∀ (l : List Obj) (x : Obj), x ∈ l → x ∉ ts → x ∈ ts.foldl List.erase l := by
  induction ts with
  | nil => intro l x hx _; exact hx
  | cons t ts ih =>
    intro l x hx hnot
    simp only [List.mem_cons, not_or] at hnot
    simp only [List.foldl]
    exact ih _ x ((List.mem_erase_of_ne hnot.1).mpr hx) hnot.2

theorem count_foldl_erase_of_not_mem {Obj : Type} [DecidableEq Obj] (ts : List Obj) :
    ∀ (l : List Obj) (y : Obj), y ∉ ts → (ts.foldl List.erase l).count y = l.count y := by
  induction ts with
  | nil => intro l y _; rfl
  | cons t ts ih =>
    intro l y hnot
    simp only [List.mem_cons, not_or] at hnot
    simp only [List.foldl]
    rw [ih _ y hnot.2, List.count_erase_of_ne hnot.1]

theorem count_foldl_erase_of_mem {Obj : Type} [DecidableEq Obj] (ts : List Obj) :
    ∀ (l : List Obj) (x : Obj), ts.Nodup → x ∈ ts →
      (ts.foldl List.erase l).count x = l.count x - 1 := by
  induction ts with
  | nil => intro l x _ hx; cases hx
  | cons t ts ih =>
    intro l x hnd hx
    rw [List.nodup_cons] at hnd
    simp only [List.foldl]
    by_cases hxt : x = t
    · subst hxt
      rw [count_foldl_erase_of_not_mem ts _ x hnd.1, List.count_erase_self]
    · have hx2 : x ∈ ts := by
        rcases List.mem_cons.mp hx with h | h
        · exact absurd h hxt
        · exact h
      rw [ih _ x hnd.2 hx2, List.count_erase_of_ne hxt]

theorem foldl_erase_eq_filter {Obj : Type} [DecidableEq Obj] (ts : List Obj) :
    ∀ (l : List Obj), l.Nodup → ts.foldl List.erase l = l.filter (fun x => decide (x ∉ ts)) := by
  induction ts with
  | nil => intro l _; simp
  | cons t ts ih =>
    intro l hnd
    simp only [List.foldl]
    rw [ih _ (hnd.erase t), hnd.erase_eq_filter, List.filter_filter]
    apply List.filter_congr
    intro x _
    by_cases hxt : x = t <;> simp [hxt]

/-- A pass of `Game::OnEvent` over a queue whose removal events target pairwise
distinct objects of the collection stays defined and erases the targets. -/
theorem Game.foldl_receiver_removals {Obj : Type} [DecidableEq Obj] (mask : Mask → Nat)
    (q : List (fw.Event Obj)) :
    ∀ (g : Game Obj), (fw.removalTargets q).Nodup →
      (∀ x ∈ fw.removalTargets q, x ∈ g.m_Objects) →
      ∃ g', q.foldl (fun t e => (Game.receiver mask t e).1) (some g) = some g' ∧
        g'.m_Objects = (fw.removalTargets q).foldl List.erase g.m_Objects ∧
        g'.deletedObjects = g.deletedObjects ++ fw.removalTargets q := by
  induction q with
  | nil =>
    intro g _ _
    exact ⟨g, rfl, rfl, by simp [fw.removalTargets]⟩
  | cons e q ih =>
    intro g hnd hmem
    by_cases he : ∃ Y, e = .RemoveFromGameEvent Y
    · obtain ⟨Y, rfl⟩ := he
      simp only [fw.removalTargets, List.nodup_cons] at hnd
      have hY : Y ∈ g.m_Objects := hmem Y (by simp [fw.removalTargets])
      have hmem2 : ∀ x ∈ fw.removalTargets q, x ∈ g.m_Objects.erase Y := by
        intro x hx
        have hne : x ≠ Y := fun h => hnd.1 (h ▸ hx)
        exact (List.mem_erase_of_ne hne).mpr (hmem x (by simp [fw.removalTargets, hx]))
      obtain ⟨g', h1, h2, h3⟩ := ih
        { g with m_Objects := g.m_Objects.erase Y, deletedObjects := g.deletedObjects ++ [Y] }
        hnd.2 hmem2
      refine ⟨g', ?_, ?_, ?_⟩
      · simp only [List.foldl, Game.receiver, Game.OnEvent_remove_mem mask g Y hY]
        exact h1
      · rw [h2]; rfl
      · rw [h3]; simp [fw.removalTargets]
    · have he2 : ∀ Y, e ≠ .RemoveFromGameEvent Y := fun Y h => he ⟨Y, h⟩
      obtain ⟨g1, hg1, hobj, hdel, -, -⟩ := Game.OnEvent_not_remove mask g e he2
      have htargets : fw.removalTargets (e :: q) = fw.removalTargets q := by
        cases e with
        | RemoveFromGameEvent o => exact absurd rfl (he2 o)
        | InputEvent d st key => rfl
        | WindowResizeEvent w h => rfl
        | OnCharEvent v => rfl
      rw [htargets] at hnd hmem ⊢
      obtain ⟨g', h1, h2, h3⟩ := ih g1 hnd (by rw [hobj]; exact hmem)
      refine ⟨g', ?_, ?_, ?_⟩
      · simp only [List.foldl, Game.receiver, hg1]
        exact h1
      · rw [h2, hobj]
      · rw [h3, hdel]

theorem Game.updateLoop_visits {Obj : Type}
    (objectUpdate : Controller → Obj → List (fw.Event Obj)) (c : Controller)
    (objs : List Obj) :
    ∀ em, (Game.updateLoop objectUpdate c objs em).2 = objs := by
  induction objs with
  | nil => intro em; rfl
  | cons o objs ih => intro em; simp [Game.updateLoop, ih]

theorem Game.mem_updateLoop_queue {Obj : Type}
    (objectUpdate : Controller → Obj → List (fw.Event Obj)) (c : Controller)
    (objs : List Obj) (e : fw.Event Obj) :
    ∀ em, e ∈ (Game.updateLoop objectUpdate c objs em).1.m_EventQueue ↔
      e ∈ em.m_EventQueue ∨ ∃ o ∈ objs, e ∈ objectUpdate c o := by
  induction objs with
  | nil => intro em; simp [Game.updateLoop]
  | cons o objs ih =>
    intro em
    simp only [Game.updateLoop, ih, fw.queue_foldl_AddEvent, List.mem_append, List.mem_cons,
      exists_eq_or_imp]
    tauto

theorem Game.drawLoop_eq {Obj : Type} (objs : List Obj) : Game.drawLoop objs = objs := by
  induction objs with
  | nil => rfl
  | cons o objs ih => simp [Game.drawLoop, ih]

theorem Game.foldl_AddEvent_objects {Obj : Type} (es : List (fw.Event Obj)) :
    ∀ g : Game Obj, (es.foldl Game.AddEvent g).m_Objects = g.m_Objects := by
  induction es with
  | nil => intro g; rfl
  | cons e es ih => intro g; simp [List.foldl, ih, Game.AddEvent]

theorem Game.foldl_AddEvent_queue {Obj : Type} (es : List (fw.Event Obj)) :
    ∀ g : Game Obj, (es.foldl Game.AddEvent g).m_pEventManager.m_EventQueue =
      g.m_pEventManager.m_EventQueue ++ es := by
  induction es with
  | nil => intro g; simp
  | cons e es ih => intro g; simp [List.foldl, ih, Game.AddEvent, fw.EventManager.AddEvent]

/-- The method `Game::StartFrame` on a queue whose removal events target pairwise
distinct objects of the collection. -/
theorem Game.StartFrame_removals {Obj : Type} [DecidableEq Obj] (mask : Mask → Nat)
    (fuel : Nat) (g : Game Obj) (hfuel : g.m_pEventManager.m_EventQueue.length ≤ fuel)
    (hdistinct : (fw.removalTargets g.m_pEventManager.m_EventQueue).Nodup)
    (hmem : ∀ x ∈ fw.removalTargets g.m_pEventManager.m_EventQueue, x ∈ g.m_Objects) :
    ∃ g', Game.StartFrame mask fuel g = some (some g') ∧
      g'.m_Objects =
        (fw.removalTargets g.m_pEventManager.m_EventQueue).foldl List.erase g.m_Objects ∧
      g'.deletedObjects =
        g.deletedObjects ++ fw.removalTargets g.m_pEventManager.m_EventQueue ∧
      g'.m_pEventManager.m_EventQueue = [] := by
  obtain ⟨g2, h1, h2, h3⟩ := Game.foldl_receiver_removals mask
    g.m_pEventManager.m_EventQueue { g with m_pController := g.m_pController.StartFrame }
    hdistinct hmem
  refine ⟨{ g2 with m_pEventManager := { m_EventQueue := [] } }, ?_, h2, h3, rfl⟩
  rw [Game.StartFrame_eq mask fuel g hfuel, h1]

/-- C6: for every object collection and every removal event whose target X is in
the collection, `Game::OnEvent` leaves the collection with the first occurrence
of X erased: one object shorter, the other objects in their original order, and
X absent when it occurred once; the object is recorded as deleted. For every
event that is not a removal event, `Game::OnEvent` leaves the collection
unchanged. -/
theorem C6_OnEvent_erases_target {Obj : Type} [DecidableEq Obj] (mask : Mask → Nat)
    (g : Game Obj) (X : Obj) (hX : X ∈ g.m_Objects) :
    (∃ g', Game.OnEvent mask g (.RemoveFromGameEvent X) = some g' ∧
      g'.m_Objects = g.m_Objects.erase X ∧
      (∃ l1 l2, X ∉ l1 ∧ g.m_Objects = l1 ++ X :: l2 ∧ g'.m_Objects = l1 ++ l2) ∧
      g'.m_Objects.length + 1 = g.m_Objects.length ∧
      (∀ y, y ≠ X → g'.m_Objects.count y = g.m_Objects.count y) ∧
      (g.m_Objects.count X = 1 → X ∉ g'.m_Objects) ∧
      g'.deletedObjects = g.deletedObjects ++ [X]) ∧
    (∀ e : fw.Event Obj, (∀ Y, e ≠ .RemoveFromGameEvent Y) →
      ∃ g', Game.OnEvent mask g e = some g' ∧ g'.m_Objects = g.m_Objects) := by
  constructor
  · refine ⟨_, Game.OnEvent_remove_mem mask g X hX, rfl, ?_, ?_, ?_, ?_, rfl⟩
    · exact List.exists_erase_eq hX
    · show (g.m_Objects.erase X).length + 1 = g.m_Objects.length
      obtain ⟨l1, l2, -, h1, h2⟩ := List.exists_erase_eq hX
      rw [h2, h1]
      simp
      omega
    · intro y hy
      exact List.count_erase_of_ne hy g.m_Objects
    · intro hc
      show X ∉ g.m_Objects.erase X
      rw [← List.count_eq_zero, List.count_erase_self, hc]
  · intro e he
    obtain ⟨g', h1, h2, -⟩ := Game.OnEvent_not_remove mask g e he
    exact ⟨g', h1, h2⟩

/-- C6, at a concrete input: object `2` removed from the objects `1`, `2`, `3`. -/
theorem C6_OnEvent_erases_target_witness :
    2 ∈ sampleGame.m_Objects ∧
    Game.OnEvent stdMask sampleGame (.RemoveFromGameEvent 2) =
      some { sampleGame with m_Objects := [1, 3], deletedObjects := [2] } ∧
    (∃ g', Game.OnEvent stdMask sampleGame (.RemoveFromGameEvent 2) = some g' ∧
      g'.m_Objects = sampleGame.m_Objects.erase 2 ∧
      (∃ l1 l2, 2 ∉ l1 ∧ sampleGame.m_Objects = l1 ++ 2 :: l2 ∧ g'.m_Objects = l1 ++ l2) ∧
      g'.m_Objects.length + 1 = sampleGame.m_Objects.length ∧
      (∀ y, y ≠ 2 → g'.m_Objects.count y = sampleGame.m_Objects.count y) ∧
      (sampleGame.m_Objects.count 2 = 1 → 2 ∉ g'.m_Objects) ∧
      g'.deletedObjects = sampleGame.deletedObjects ++ [2]) :=
  ⟨by decide, by decide, (C6_OnEvent_erases_target stdMask sampleGame 2 (by decide)).1⟩

/-- C9: for every object collection and every queue dispatched by
`Game::StartFrame` whose removal events target pairwise distinct objects, all in
the collection at call entry, the call returns (one unit of fuel per event) with
defined behaviour: at every removal event of the pass the target is found in the
collection as it then is, so `erase` is never handed the end iterator. The
collection afterwards is the entry collection with the targets erased (each
target one occurrence fewer, every other object as often as before, and exactly
the objects that are no target when no object is repeated); each target is
deleted once. -/
theorem C9_removal_lookups_succeed {Obj : Type} [DecidableEq Obj] (mask : Mask → Nat)
    (fuel : Nat) (g : Game Obj) (hfuel : g.m_pEventManager.m_EventQueue.length ≤ fuel)
    (hdistinct : (fw.removalTargets g.m_pEventManager.m_EventQueue).Nodup)
    (hmem : ∀ x ∈ fw.removalTargets g.m_pEventManager.m_EventQueue, x ∈ g.m_Objects) :
    (∀ (pre post : List (fw.Event Obj)) (X : Obj),
      g.m_pEventManager.m_EventQueue = pre ++ .RemoveFromGameEvent X :: post →
      ∃ gmid, pre.foldl (fun t e => (Game.receiver mask t e).1)
          (some { g with m_pController := g.m_pController.StartFrame }) = some gmid ∧
        List.indexOf X gmid.m_Objects < gmid.m_Objects.length ∧
        Game.OnEvent mask gmid (.RemoveFromGameEvent X) ≠ none) ∧
    (∃ g', Game.StartFrame mask fuel g = some (some g') ∧
      g'.m_Objects =
        (fw.removalTargets g.m_pEventManager.m_EventQueue).foldl List.erase g.m_Objects ∧
      (∀ x ∈ fw.removalTargets g.m_pEventManager.m_EventQueue,
        g'.m_Objects.count x = g.m_Objects.count x - 1) ∧
      (∀ y, y ∉ fw.removalTargets g.m_pEventManager.m_EventQueue →
        g'.m_Objects.count y = g.m_Objects.count y) ∧
      (g.m_Objects.Nodup →
        g'.m_Objects = g.m_Objects.filter
          (fun x => decide (x ∉ fw.removalTargets g.m_pEventManager.m_EventQueue))) ∧
      g'.deletedObjects =
        g.deletedObjects ++ fw.removalTargets g.m_pEventManager.m_EventQueue ∧
      g'.m_pEventManager.m_EventQueue = []) := by
  constructor
  · intro pre post X hq
    rw [hq, removalTargets_append] at hdistinct hmem
    simp only [fw.removalTargets] at hdistinct hmem
    have hnd := List.nodup_append.mp hdistinct
    obtain ⟨gmid, h1, h2, -⟩ := Game.foldl_receiver_removals mask pre
      { g with m_pController := g.m_pController.StartFrame } hnd.1
      (fun x hx => hmem x (List.mem_append_left _ hx))
    have hXmem : X ∈ g.m_Objects := hmem X (by simp)
    have hXnot : X ∉ fw.removalTargets pre := by
      intro hx
      exact hnd.2.2 hx (List.mem_cons_self _ _)
    have hXmid : X ∈ gmid.m_Objects := by
      rw [h2]
      exact mem_foldl_erase _ _ X hXmem hXnot
    refine ⟨gmid, h1, List.indexOf_lt_length.mpr hXmid, ?_⟩
    rw [Game.OnEvent_remove_mem mask gmid X hXmid]
    simp
  · obtain ⟨g', h1, h2, h3, h4⟩ := Game.StartFrame_removals mask fuel g hfuel hdistinct hmem
    refine ⟨g', h1, h2, ?_, ?_, ?_, h3, h4⟩
    · intro x hx
      rw [h2]
      exact count_foldl_erase_of_mem _ _ x hdistinct hx
    · intro y hy
      rw [h2]
      exact count_foldl_erase_of_not_mem _ _ y hy
    · intro hnd
      rw [h2]
      exact foldl_erase_eq_filter _ _ hnd

/-- C9, at a concrete input: the objects `1`, `2`, `3` with removal events for
`3` and `1` around a key press. -/
theorem C9_removal_lookups_succeed_witness :
    sampleGameQueued.m_pEventManager.m_EventQueue.length ≤ 3 ∧
    (fw.removalTargets sampleGameQueued.m_pEventManager.m_EventQueue).Nodup ∧
    (∀ x ∈ fw.removalTargets sampleGameQueued.m_pEventManager.m_EventQueue,
      x ∈ sampleGameQueued.m_Objects) ∧
    Game.StartFrame stdMask 3 sampleGameQueued =
      some (some { sampleGame with
        m_pController := { m_Flags := 16, m_OldFlags := 0 }
        m_Objects := [2]
        deletedObjects := [3, 1] }) ∧
    (∃ g', Game.StartFrame stdMask 3 sampleGameQueued = some (some g') ∧
      g'.m_Objects =
        (fw.removalTargets sampleGameQueued.m_pEventManager.m_EventQueue).foldl
          List.erase sampleGameQueued.m_Objects ∧
      (∀ x ∈ fw.removalTargets sampleGameQueued.m_pEventManager.m_EventQueue,
        g'.m_Objects.count x = sampleGameQueued.m_Objects.count x - 1) ∧
      (∀ y, y ∉ fw.removalTargets sampleGameQueued.m_pEventManager.m_EventQueue →
        g'.m_Objects.count y = sampleGameQueued.m_Objects.count y) ∧
      (sampleGameQueued.m_Objects.Nodup →
        g'.m_Objects = sampleGameQueued.m_Objects.filter
          (fun x => decide
            (x ∉ fw.removalTargets sampleGameQueued.m_pEventManager.m_EventQueue))) ∧
      g'.deletedObjects = sampleGameQueued.deletedObjects ++
        fw.removalTargets sampleGameQueued.m_pEventManager.m_EventQueue ∧
      g'.m_pEventManager.m_EventQueue = []) :=
  ⟨by decide, by decide, by decide, by decide,
    (C9_removal_lookups_succeed stdMask 3 sampleGameQueued (by decide) (by decide)
      (by decide)).2⟩

/-- C3: for every single-bit action mask and every sequence of frames, each run as
`Game::StartFrame` runs it (the controller's `StartFrame` once, then the frame's
queued events handed to `Controller::OnEvent`), the queries read after a frame
satisfy: `IsHeld` is the held state the specification's state machine reaches on
the frame's events from the held state after the frame before; `WasPressed` holds
iff the action is held after this frame and was not held after the frame before;
`WasReleased` holds iff it is not held after this frame and was held after the
frame before. `Game::StartFrame` returns with one unit of fuel per queued event,
and, when its removal events target pairwise distinct objects of the collection,
returns a game whose controller is the controller after its part of the frame
and obeys these three laws; so does the dispatch of the frame's events to
`Controller::OnEvent` alone. For four frames with the states released, held,
held, released, starting from released, `WasPressed` is false, true, false, false
and `WasReleased` is false, false, false, true. -/
theorem C3_edge_detection {Obj : Type} [DecidableEq Obj] (mask : Mask → Nat)
    (hm : SingleBitMasks mask) (c : Controller) (past : List (List (fw.Event Obj)))
    (events : List (fw.Event Obj)) (a : Mask) :
    (∀ (g g' : Game Obj) (fuel : Nat), Game.StartFrame mask fuel g = some (some g') →
      g'.m_pController =
        Controller.runFrame mask g.m_pController g.m_pEventManager.m_EventQueue) ∧
    (∀ (g : Game Obj) (fuel : Nat), g.m_pEventManager.m_EventQueue.length ≤ fuel →
      ∃ res, Game.StartFrame mask fuel g = some res ∧
        ∀ g', res = some g' →
          g'.m_pController = Controller.runFrame mask g.m_pController g.m_pEventManager.m_EventQueue) ∧
    (∀ (g : Game Obj) (fuel : Nat), g.m_pEventManager.m_EventQueue.length ≤ fuel →
      (fw.removalTargets g.m_pEventManager.m_EventQueue).Nodup →
      (∀ x ∈ fw.removalTargets g.m_pEventManager.m_EventQueue, x ∈ g.m_Objects) →
      ∃ g', Game.StartFrame mask fuel g = some (some g') ∧
        g'.m_pController = Controller.runFrame mask g.m_pController g.m_pEventManager.m_EventQueue ∧
        g'.m_pController.IsHeld (mask a) =
          specHeld a (g.m_pController.IsHeld (mask a)) g.m_pEventManager.m_EventQueue ∧
        g'.m_pController.WasPressed (mask a) =
          (g'.m_pController.IsHeld (mask a) && !g.m_pController.IsHeld (mask a)) ∧
        g'.m_pController.WasReleased (mask a) =
          (!g'.m_pController.IsHeld (mask a) && g.m_pController.IsHeld (mask a))) ∧
    (∀ fuel : Nat, events.length ≤ fuel →
      ∃ r, fw.EventManager.DispatchAllEvents fuel
          (fun s e => (Controller.OnEvent mask s e, ([] : List (fw.Event Obj))))
          (Controller.runFrames mask c past).StartFrame { m_EventQueue := events } = some r ∧
        fw.Effect.calls r.trace = events ∧
        r.manager.m_EventQueue = [] ∧
        r.receiver = Controller.runFrame mask (Controller.runFrames mask c past) events) ∧
    (Controller.runFrame mask (Controller.runFrames mask c past) events).IsHeld (mask a) =
      specHeld a ((Controller.runFrames mask c past).IsHeld (mask a)) events ∧
    (Controller.runFrame mask (Controller.runFrames mask c past) events).WasPressed (mask a) =
      ((Controller.runFrame mask (Controller.runFrames mask c past) events).IsHeld (mask a) &&
        !(Controller.runFrames mask c past).IsHeld (mask a)) ∧
    (Controller.runFrame mask (Controller.runFrames mask c past) events).WasReleased (mask a) =
      (!(Controller.runFrame mask (Controller.runFrames mask c past) events).IsHeld (mask a) &&
        (Controller.runFrames mask c past).IsHeld (mask a)) ∧
    (∀ f1 f2 f3 f4 : List (fw.Event Obj), c.IsHeld (mask a) = false →
      [(Controller.runFrames mask c [f1]).IsHeld (mask a),
        (Controller.runFrames mask c [f1, f2]).IsHeld (mask a),
        (Controller.runFrames mask c [f1, f2, f3]).IsHeld (mask a),
        (Controller.runFrames mask c [f1, f2, f3, f4]).IsHeld (mask a)] =
        [false, true, true, false] →
      [(Controller.runFrames mask c [f1]).WasPressed (mask a),
        (Controller.runFrames mask c [f1, f2]).WasPressed (mask a),
        (Controller.runFrames mask c [f1, f2, f3]).WasPressed (mask a),
        (Controller.runFrames mask c [f1, f2, f3, f4]).WasPressed (mask a)] =
        [false, true, false, false] ∧
      [(Controller.runFrames mask c [f1]).WasReleased (mask a),
        (Controller.runFrames mask c [f1, f2]).WasReleased (mask a),
        (Controller.runFrames mask c [f1, f2, f3]).WasReleased (mask a),
        (Controller.runFrames mask c [f1, f2, f3, f4]).WasReleased (mask a)] =
        [false, false, false, true]) := by
  refine ⟨fun g g' fuel h => Game.StartFrame_controller mask fuel g g' h, ?_, ?_, ?_,
    isHeld_runFrame mask hm _ events a, wasPressed_runFrame mask _ events _,
    wasReleased_runFrame mask _ events _, ?_⟩
  · intro g fuel hfuel
    have h := Game.StartFrame_eq mask fuel g hfuel
    refine ⟨_, h, ?_⟩
    intro g' hg'
    exact Game.StartFrame_controller mask fuel g g' (h.trans (congrArg some hg'))
  · intro g fuel hfuel hdistinct hmem
    obtain ⟨g', h1, -⟩ := Game.StartFrame_removals mask fuel g hfuel hdistinct hmem
    have hc := Game.StartFrame_controller mask fuel g g' h1
    refine ⟨g', h1, hc, ?_, ?_, ?_⟩
    · rw [hc]; exact isHeld_runFrame mask hm _ _ a
    · rw [hc]; exact wasPressed_runFrame mask _ _ _
    · rw [hc]; exact wasReleased_runFrame mask _ _ _
  · intro fuel hfuel
    have h := fw.DispatchAllEvents_of_no_add
      (fun s e => (Controller.OnEvent mask s e, ([] : List (fw.Event Obj))))
      (fun _ _ => rfl) fuel (Controller.runFrames mask c past).StartFrame
      { m_EventQueue := events } hfuel
    exact ⟨_, h, fw.calls_deliveries events, rfl, rfl⟩
  · intro f1 f2 f3 f4 h0 hseq
    simp only [Controller.runFrames, List.foldl] at hseq ⊢
    simp only [List.cons.injEq, and_true] at hseq
    obtain ⟨h1, h2, h3, h4⟩ := hseq
    simp only [wasPressed_runFrame, wasReleased_runFrame, h0, h1, h2, h3, h4]
    exact ⟨rfl, rfl⟩

/-- C3, at a concrete input: Up over the four frames nothing, KeyDown W, KeyDown Z,
KeyUp Up, from clear flags and with the bits 0 to 4 as masks; and one
`Game::StartFrame` on the objects `1`, `2`, `3` with a press of Z queued between
two removal events. -/
theorem C3_edge_detection_witness :
    SingleBitMasks stdMask ∧
    clearController.IsHeld (stdMask .Up) = false ∧
    [(Controller.runFrames stdMask clearController
        [frameIdle]).IsHeld (stdMask .Up),
      (Controller.runFrames stdMask clearController
        [frameIdle, framePressW]).IsHeld (stdMask .Up),
      (Controller.runFrames stdMask clearController
        [frameIdle, framePressW, framePressZ]).IsHeld (stdMask .Up),
      (Controller.runFrames stdMask clearController
        [frameIdle, framePressW, framePressZ, frameReleaseUp]).IsHeld (stdMask .Up)] =
      [false, true, true, false] ∧
    ([(Controller.runFrames stdMask clearController
        [frameIdle]).WasPressed (stdMask .Up),
      (Controller.runFrames stdMask clearController
        [frameIdle, framePressW]).WasPressed (stdMask .Up),
      (Controller.runFrames stdMask clearController
        [frameIdle, framePressW, framePressZ]).WasPressed (stdMask .Up),
      (Controller.runFrames stdMask clearController
        [frameIdle, framePressW, framePressZ, frameReleaseUp]).WasPressed (stdMask .Up)] =
      [false, true, false, false] ∧
    [(Controller.runFrames stdMask clearController
        [frameIdle]).WasReleased (stdMask .Up),
      (Controller.runFrames stdMask clearController
        [frameIdle, framePressW]).WasReleased (stdMask .Up),
      (Controller.runFrames stdMask clearController
        [frameIdle, framePressW, framePressZ]).WasReleased (stdMask .Up),
      (Controller.runFrames stdMask clearController
        [frameIdle, framePressW, framePressZ, frameReleaseUp]).WasReleased (stdMask .Up)] =
      [false, false, false, true]) ∧
    sampleGameQueued.m_pEventManager.m_EventQueue.length ≤ 3 ∧
    (fw.removalTargets sampleGameQueued.m_pEventManager.m_EventQueue).Nodup ∧
    (∀ x ∈ fw.removalTargets sampleGameQueued.m_pEventManager.m_EventQueue, x ∈ sampleGameQueued.m_Objects) ∧
    Game.StartFrame stdMask 3 sampleGameQueued =
      some (some { sampleGame with
        m_pController := { m_Flags := 16, m_OldFlags := 0 }
        m_Objects := [2]
        deletedObjects := [3, 1] }) ∧
    (∃ g', Game.StartFrame stdMask 3 sampleGameQueued = some (some g') ∧
      g'.m_pController =
        Controller.runFrame stdMask sampleGameQueued.m_pController sampleGameQueued.m_pEventManager.m_EventQueue ∧
      g'.m_pController.IsHeld (stdMask .Action) =
        specHeld .Action (sampleGameQueued.m_pController.IsHeld (stdMask .Action)) sampleGameQueued.m_pEventManager.m_EventQueue ∧
      g'.m_pController.WasPressed (stdMask .Action) =
        (g'.m_pController.IsHeld (stdMask .Action) &&
          !sampleGameQueued.m_pController.IsHeld (stdMask .Action)) ∧
      g'.m_pController.WasReleased (stdMask .Action) =
        (!g'.m_pController.IsHeld (stdMask .Action) &&
          sampleGameQueued.m_pController.IsHeld (stdMask .Action))) ∧
    (∃ r, fw.EventManager.DispatchAllEvents 1
        (fun s e => (Controller.OnEvent stdMask s e, ([] : List (fw.Event Nat))))
        (Controller.runFrames stdMask clearController
          [frameIdle, framePressW]).StartFrame { m_EventQueue := framePressZ } = some r ∧
      fw.Effect.calls r.trace = framePressZ ∧
      r.manager.m_EventQueue = [] ∧
      r.receiver = Controller.runFrame stdMask
        (Controller.runFrames stdMask clearController [frameIdle, framePressW])
        framePressZ) :=
  ⟨stdMask_singleBit, by decide, by decide,
    (C3_edge_detection stdMask stdMask_singleBit clearController
      [frameIdle, framePressW] framePressZ .Up).2.2.2.2.2.2.2
      frameIdle framePressW framePressZ frameReleaseUp (by decide) (by decide),
    by decide, by decide, by decide, by decide,
    (C3_edge_detection stdMask stdMask_singleBit clearController
      [frameIdle, framePressW] framePressZ .Action).2.2.1
      sampleGameQueued 3 (by decide) (by decide) (by decide),
    (C3_edge_detection stdMask stdMask_singleBit clearController
      [frameIdle, framePressW] framePressZ .Up).2.2.2.1 1 (by decide)⟩

/-- C7, as stated, fails: object `2` of the objects `1`, `2`, `3` is in the
collection once and its removal is enqueued during the update of a frame, by the
objects `1` and `2` both. The update visits `1`, `2`, `3`, the queue of the next
`Game::StartFrame` holds two removal events for `2`, and at the second one
`std::find` returns the end iterator: the behaviour is undefined, and for no fuel
does `Game::StartFrame` return a game, so it returns no collection without `2`. -/
theorem C7_counterexample :
    sampleGame.m_Objects.count 2 = 1 ∧
    (∃ o ∈ sampleGame.m_Objects,
      fw.Event.RemoveFromGameEvent 2 ∈ twoAskersUpdate sampleGame.m_pController o) ∧
    (Game.Update twoAskersUpdate sampleGame).2 = [1, 2, 3] ∧
    (Game.restOfFrame twoAskersUpdate frameIdle sampleGame).m_pEventManager.m_EventQueue =
      [.RemoveFromGameEvent 2, .RemoveFromGameEvent 2] ∧
    Game.OnEvent stdMask sampleGame (.RemoveFromGameEvent 2) =
      some { sampleGame with m_Objects := [1, 3], deletedObjects := [2] } ∧
    Game.OnEvent stdMask { sampleGame with m_Objects := [1, 3], deletedObjects := [2] }
      (.RemoveFromGameEvent 2) = none ∧
    Game.StartFrame stdMask 2 (Game.restOfFrame twoAskersUpdate frameIdle sampleGame) =
      some none ∧
    ¬ ∃ fuel g2, Game.StartFrame stdMask fuel
      (Game.restOfFrame twoAskersUpdate frameIdle sampleGame) = some (some g2) := by
  refine ⟨by decide, by decide, by decide, by decide, by decide, by decide, by decide, ?_⟩
  rintro ⟨fuel, g2, h⟩
  have hq : (Game.restOfFrame twoAskersUpdate frameIdle
      sampleGame).m_pEventManager.m_EventQueue.length = 2 := by decide
  by_cases hfuel : 2 ≤ fuel
  · rw [Game.StartFrame_eq stdMask fuel _ (by rw [hq]; exact hfuel)] at h
    have hfold : (Game.restOfFrame twoAskersUpdate frameIdle
        sampleGame).m_pEventManager.m_EventQueue.foldl
        (fun t e => (Game.receiver stdMask t e).1)
        (some { Game.restOfFrame twoAskersUpdate frameIdle sampleGame with
          m_pController :=
            (Game.restOfFrame twoAskersUpdate frameIdle sampleGame).m_pController.StartFrame })
        = none := by decide
    rw [hfold] at h
    cases h
  · have hcases : fuel = 0 ∨ fuel = 1 := by omega
    rcases hcases with h0 | h1
    · subst h0
      have hnone : Game.StartFrame stdMask 0
          (Game.restOfFrame twoAskersUpdate frameIdle sampleGame) = none := by decide
      rw [hnone] at h
      cases h
    · subst h1
      have hnone : Game.StartFrame stdMask 1
          (Game.restOfFrame twoAskersUpdate frameIdle sampleGame) = none := by decide
      rw [hnone] at h
      cases h

/-- C7, amended: removal is deferred to the dispatch phase. `AddEvent` (of a
removal event as of any event), `Game::Update` and `Game::Draw` each leave the
object collection, its members and their order, unchanged, and the two passes
visit exactly the collection. So an object X of the collection whose removal is
enqueued during the update of a frame is still in the collection and visited by
the update and draw passes of that frame, and its removal event is in the queue
of the next frame. When the removal events in that queue target pairwise
distinct objects, all in the collection, the `Game::StartFrame` of the next
frame returns with one occurrence of X erased from the collection: X is absent
when it occurred once. -/
theorem C7_removal_deferred {Obj : Type} [DecidableEq Obj] (mask : Mask → Nat)
    (objectUpdate : Controller → Obj → List (fw.Event Obj)) (g : Game Obj) (X : Obj)
    (hostEvents : List (fw.Event Obj))
    (hX : X ∈ g.m_Objects)
    (henq : ∃ o ∈ g.m_Objects,
      fw.Event.RemoveFromGameEvent X ∈ objectUpdate g.m_pController o) :
    (∀ (h : Game Obj) (e : fw.Event Obj), (h.AddEvent e).m_Objects = h.m_Objects) ∧
    (∀ (h : Game Obj) (upd : Controller → Obj → List (fw.Event Obj)),
      (Game.Update upd h).1.m_Objects = h.m_Objects ∧ (Game.Update upd h).2 = h.m_Objects) ∧
    (∀ h : Game Obj, (Game.Draw h).1.m_Objects = h.m_Objects ∧ (Game.Draw h).2 = h.m_Objects) ∧
    X ∈ (Game.Update objectUpdate g).1.m_Objects ∧
    X ∈ (Game.Update objectUpdate g).2 ∧
    fw.Event.RemoveFromGameEvent X ∈
      (Game.Update objectUpdate g).1.m_pEventManager.m_EventQueue ∧
    X ∈ (Game.Draw (Game.Update objectUpdate g).1).1.m_Objects ∧
    X ∈ (Game.Draw (Game.Update objectUpdate g).1).2 ∧
    (Game.restOfFrame objectUpdate hostEvents g).m_Objects = g.m_Objects ∧
    fw.Event.RemoveFromGameEvent X ∈
      (Game.restOfFrame objectUpdate hostEvents g).m_pEventManager.m_EventQueue ∧
    (∀ fuel : Nat,
      (Game.restOfFrame objectUpdate hostEvents g).m_pEventManager.m_EventQueue.length ≤ fuel →
      (fw.removalTargets
        (Game.restOfFrame objectUpdate hostEvents g).m_pEventManager.m_EventQueue).Nodup →
      (∀ x ∈ fw.removalTargets
        (Game.restOfFrame objectUpdate hostEvents g).m_pEventManager.m_EventQueue,
          x ∈ g.m_Objects) →
      ∃ g2, Game.StartFrame mask fuel (Game.restOfFrame objectUpdate hostEvents g) =
          some (some g2) ∧
        g2.m_Objects = (fw.removalTargets
          (Game.restOfFrame objectUpdate hostEvents g).m_pEventManager.m_EventQueue).foldl
            List.erase g.m_Objects ∧
        g2.m_Objects.count X = g.m_Objects.count X - 1 ∧
        (g.m_Objects.count X = 1 → X ∉ g2.m_Objects)) := by
  have hUpd : ∀ (h : Game Obj) (upd : Controller → Obj → List (fw.Event Obj)),
      (Game.Update upd h).1.m_Objects = h.m_Objects ∧ (Game.Update upd h).2 = h.m_Objects :=
    fun h upd => ⟨rfl, Game.updateLoop_visits upd _ _ _⟩
  have hDraw : ∀ h : Game Obj,
      (Game.Draw h).1.m_Objects = h.m_Objects ∧ (Game.Draw h).2 = h.m_Objects :=
    fun h => ⟨rfl, Game.drawLoop_eq _⟩
  have hqU : fw.Event.RemoveFromGameEvent X ∈
      (Game.Update objectUpdate g).1.m_pEventManager.m_EventQueue := by
    show _ ∈ (Game.updateLoop objectUpdate g.m_pController g.m_Objects
      g.m_pEventManager).1.m_EventQueue
    rw [Game.mem_updateLoop_queue]
    exact Or.inr henq
  have hobjs : (Game.restOfFrame objectUpdate hostEvents g).m_Objects = g.m_Objects := by
    unfold Game.restOfFrame
    rw [Game.foldl_AddEvent_objects]
    rfl
  have hqR : fw.Event.RemoveFromGameEvent X ∈
      (Game.restOfFrame objectUpdate hostEvents g).m_pEventManager.m_EventQueue := by
    unfold Game.restOfFrame
    rw [Game.foldl_AddEvent_queue]
    exact List.mem_append_left _ hqU
  have hXtarget := (mem_removalTargets _ X).mpr hqR
  refine ⟨fun _ _ => rfl, hUpd, hDraw, ?_, ?_, hqU, ?_, ?_, hobjs, hqR, ?_⟩
  · rw [(hUpd g objectUpdate).1]; exact hX
  · rw [(hUpd g objectUpdate).2]; exact hX
  · rw [(hDraw _).1, (hUpd g objectUpdate).1]; exact hX
  · rw [(hDraw _).2, (hUpd g objectUpdate).1]; exact hX
  · intro fuel hfuel hdistinct hmem
    obtain ⟨g2, h1, h2, -, -⟩ := Game.StartFrame_removals mask fuel
      (Game.restOfFrame objectUpdate hostEvents g) hfuel hdistinct
      (by rw [hobjs]; exact hmem)
    rw [hobjs] at h2
    have hcount : g2.m_Objects.count X = g.m_Objects.count X - 1 := by
      rw [h2]
      exact count_foldl_erase_of_mem _ _ X hdistinct hXtarget
    refine ⟨g2, h1, h2, hcount, ?_⟩
    intro hone
    rw [← List.count_eq_zero, hcount, hone]

/-- C7 amended, at a concrete input: object `2` of the objects `1`, `2`, `3` asks
for its removal in its update, and the host adds a key press before the next
frame. -/
theorem C7_removal_deferred_witness :
    2 ∈ sampleGame.m_Objects ∧
    (∃ o ∈ sampleGame.m_Objects,
      fw.Event.RemoveFromGameEvent 2 ∈ selfRemovingUpdate sampleGame.m_pController o) ∧
    (Game.restOfFrame selfRemovingUpdate framePressZ sampleGame).m_pEventManager.m_EventQueue =
      [.RemoveFromGameEvent 2, KeyDown KEY_Z] ∧
    (Game.Update selfRemovingUpdate sampleGame).2 = [1, 2, 3] ∧
    (Game.Draw (Game.Update selfRemovingUpdate sampleGame).1).2 = [1, 2, 3] ∧
    (Game.restOfFrame selfRemovingUpdate framePressZ sampleGame).m_Objects = [1, 2, 3] ∧
    Game.StartFrame stdMask 2 (Game.restOfFrame selfRemovingUpdate framePressZ sampleGame) =
      some (some { sampleGame with
        m_pController := { m_Flags := 16, m_OldFlags := 0 }
        m_Objects := [1, 3]
        deletedObjects := [2] }) ∧
    sampleGame.m_Objects.count 2 = 1 ∧
    (∃ g2, Game.StartFrame stdMask 2
        (Game.restOfFrame selfRemovingUpdate framePressZ sampleGame) = some (some g2) ∧
      g2.m_Objects = (fw.removalTargets
        (Game.restOfFrame selfRemovingUpdate framePressZ
          sampleGame).m_pEventManager.m_EventQueue).foldl List.erase sampleGame.m_Objects ∧
      g2.m_Objects.count 2 = sampleGame.m_Objects.count 2 - 1 ∧
      (sampleGame.m_Objects.count 2 = 1 → 2 ∉ g2.m_Objects)) :=
  ⟨by decide, by decide, by decide, by decide, by decide, by decide, by decide, by decide,
    (C7_removal_deferred stdMask selfRemovingUpdate sampleGame 2 framePressZ (by decide)
      (by decide)).2.2.2.2.2.2.2.2.2.2 2 (by decide) (by decide) (by decide)⟩
